import Mathlib

/-!
Verification of the virtual-economy kernel (agent_ecology3).

This file gives a shallow embedding of the kernel's core data model and
operations — the scrip ledger (`world/ledger.py`), the sliding-window rate
tracker (`world/rates.py`), the mint auction (`world/mint.py`), the artifact
store's single-occurrence edit (`world/artifacts.py`), the action-intent JSON
parser (`world/actions.py`), the contract engine's exception flow
(`world/contracts.py`), and the two-phase AI-call accounting
(`world/world.py`) — and proves or refutes the specification's claims about
them.

Python dicts are insertion-ordered, so dict-valued state is embedded as an
ordered association list.  Python ints are unbounded, so scrip amounts are
`Int`.  Python floats (resource amounts, timestamps) are embedded as `ℚ`;
none of the verified properties depends on floating-point rounding.
-/

namespace AgentEcology

/-- First binding for key `k` in an ordered association list.  Models Python
`d.get(k)` on an insertion-ordered dict. -/
def alGet {α : Type} (l : List (String × α)) (k : String) : Option α :=
  (l.find? (fun kv => decide (kv.1 = k))).map (·.2)

/-- Replace the first binding for `k` in place, appending `(k, v)` if `k` is
absent.  Models Python `d[k] = v`: an existing key keeps its position, a new
key is appended. -/
def alSet {α : Type} (l : List (String × α)) (k : String) (v : α) : List (String × α) :=
  match l with
  | [] => [(k, v)]
  | kv :: rest => if kv.1 = k then (k, v) :: rest else kv :: alSet rest k v

/-- Python `s.startswith(pre)`. -/
def pyStartsWith (s pre : String) : Bool := pre.data.isPrefixOf s.data

/-- Ledger state (`Ledger` in `world/ledger.py`): per-principal integer scrip
and per-principal named rational resource pools, both insertion-ordered. -/
structure Ledger where
  scrip : List (String × Int)
  resources : List (String × List (String × ℚ))
deriving Repr, DecidableEq

namespace Ledger

/-- `Ledger.ensure_principal`: `setdefault` on both dicts. -/
def ensurePrincipal (L : Ledger) (pid : String) : Ledger :=
  { scrip :=
      match alGet L.scrip pid with
      | some _ => L.scrip
      | none => L.scrip ++ [(pid, 0)]
    resources :=
      match alGet L.resources pid with
      | some _ => L.resources
      | none => L.resources ++ [(pid, [])] }

/-- `Ledger.get_scrip`: `self.scrip.get(principal_id, 0)`. -/
def getScrip (L : Ledger) (pid : String) : Int := (alGet L.scrip pid).getD 0

/-- `Ledger.can_afford_scrip`. -/
def canAffordScrip (L : Ledger) (pid : String) (amount : Int) : Bool :=
  decide (amount ≤ L.getScrip pid)

/-- `Ledger.credit_scrip`: ensure the principal, then `self.scrip[pid] += amount`. -/
def creditScrip (L : Ledger) (pid : String) (amount : Int) : Ledger :=
  let L1 := L.ensurePrincipal pid
  { L1 with scrip := alSet L1.scrip pid (L1.getScrip pid + amount) }

/-- `Ledger.deduct_scrip`.  The Python body `self.scrip[pid] -= amount` indexes
the dict directly; on the success path the key is always present whenever
`amount > 0` (a missing key reads as balance 0, which cannot afford a positive
amount), which covers every caller (`transfer_scrip` and auction `submit`
require a positive amount before deducting). -/
def deductScrip (L : Ledger) (pid : String) (amount : Int) : Ledger × Bool :=
  if amount < 0 then (L, false)
  else if ¬ L.canAffordScrip pid amount then (L, false)
  else ({ L with scrip := alSet L.scrip pid (L.getScrip pid - amount) }, true)

/-- `Ledger.transfer_scrip`: reject non-positive amounts, deduct from the
sender, credit the recipient. -/
def transferScrip (L : Ledger) (fromId toId : String) (amount : Int) : Ledger × Bool :=
  if amount ≤ 0 then (L, false)
  else
    match L.deductScrip fromId amount with
    | (L1, false) => (L1, false)
    | (L1, true) => (L1.creditScrip toId amount, true)

/-- Eligible UBI recipients, in ledger insertion order: every scrip principal
whose id does not start with `"SYSTEM"`, minus the excluded principal.
Mirrors the two list comprehensions at the top of `Ledger.distribute_ubi`. -/
def ubiRecipients (L : Ledger) (exclude : Option String) : List String :=
  let recipients := (L.scrip.map Prod.fst).filter (fun pid => !(pyStartsWith pid "SYSTEM"))
  match exclude with
  | some e => recipients.filter (fun pid => decide (pid ≠ e))
  | none => recipients

/-- The per-recipient loop of `Ledger.distribute_ubi`: walk the enumerated
recipient list, credit each positive share, and record it in the payout dict
(insertion-ordered, so a list in iteration order). -/
def ubiLoop (L : Ledger) (entries : List (Nat × String)) (per rem : Int) :
    Ledger × List (String × Int) :=
  match entries with
  | [] => (L, [])
  | (idx, pid) :: rest =>
    let share := per + (if (idx : Int) < rem then 1 else 0)
    if 0 < share then
      let res := ubiLoop (L.creditScrip pid share) rest per rem
      (res.1, (pid, share) :: res.2)
    else ubiLoop L rest per rem

/-- `Ledger.distribute_ubi(amount, exclude)`: split `amount` across the
eligible recipients, `amount // n` each plus one extra unit for the first
`amount % n` recipients; zero shares are neither credited nor recorded. -/
def distributeUbi (L : Ledger) (amount : Int) (exclude : Option String) :
    Ledger × List (String × Int) :=
  let recipients := L.ubiRecipients exclude
  if amount ≤ 0 ∨ recipients = [] then (L, [])
  else
    let n : Int := recipients.length
    ubiLoop L recipients.enum (amount / n) (amount % n)

end Ledger

-- ### Association-list lemmas

theorem alGet_alSet_self {α : Type} (l : List (String × α)) (k : String) (v : α) :
    alGet (alSet l k v) k = some v := by
  induction l with
  | nil => simp [alSet, alGet, List.find?]
  | cons kv rest ih =>
    by_cases h : kv.1 = k
    · simp [alSet, h, alGet, List.find?]
    · simp only [alSet, h, if_false]
      simpa [alGet, List.find?, h] using ih

theorem alGet_alSet_ne {α : Type} (l : List (String × α)) (k k' : String) (v : α)
    (h : k' ≠ k) : alGet (alSet l k v) k' = alGet l k' := by
  induction l with
  | nil => simp [alSet, alGet, List.find?, Ne.symm h]
  | cons kv rest ih =>
    by_cases hk : kv.1 = k
    · subst hk
      simp [alSet, alGet, List.find?, Ne.symm h]
    · simp only [alSet, hk, if_false]
      by_cases hk' : kv.1 = k'
      · simp [alGet, List.find?, hk']
      · simpa [alGet, List.find?, hk'] using ih

theorem alGet_append_single {α : Type} (l : List (String × α)) (k k' : String) (v : α) :
    alGet (l ++ [(k, v)]) k' = ((alGet l k').orElse (fun _ => if k = k' then some v else none)) := by
  induction l with
  | nil => by_cases h : k = k' <;> simp [alGet, List.find?, h]
  | cons kv rest ih =>
    by_cases hk : kv.1 = k'
    · simp [alGet, List.find?, hk]
    · have h1 : alGet (kv :: (rest ++ [(k, v)])) k' = alGet (rest ++ [(k, v)]) k' := by
        simp [alGet, List.find?, hk]
      have h2 : alGet (kv :: rest) k' = alGet rest k' := by
        simp [alGet, List.find?, hk]
      simp only [List.cons_append, h1, h2, ih]

-- ### Basic scrip lemmas

theorem Ledger.getScrip_ensure (L : Ledger) (pid q : String) :
    (L.ensurePrincipal pid).getScrip q = L.getScrip q := by
  unfold Ledger.ensurePrincipal Ledger.getScrip
  cases h : alGet L.scrip pid with
  | some v => simp
  | none =>
    simp only
    rw [alGet_append_single]
    by_cases hq : pid = q
    · subst hq; simp [h]
    · cases hg : alGet L.scrip q <;> simp [hg, hq]

theorem Ledger.getScrip_credit_self (L : Ledger) (pid : String) (amount : Int) :
    (L.creditScrip pid amount).getScrip pid = L.getScrip pid + amount := by
  unfold Ledger.creditScrip
  simp only [Ledger.getScrip, alGet_alSet_self, Option.getD_some]
  have := Ledger.getScrip_ensure L pid pid
  simp only [Ledger.getScrip] at this
  rw [this]

theorem Ledger.getScrip_credit_ne (L : Ledger) (pid q : String) (amount : Int)
    (h : q ≠ pid) : (L.creditScrip pid amount).getScrip q = L.getScrip q := by
  unfold Ledger.creditScrip
  simp only [Ledger.getScrip, alGet_alSet_ne _ _ _ _ h]
  have := Ledger.getScrip_ensure L pid q
  simp only [Ledger.getScrip] at this
  rw [this]

theorem Ledger.deductScrip_fst_of_false (L : Ledger) (pid : String) (amount : Int)
    (h : (L.deductScrip pid amount).2 = false) : (L.deductScrip pid amount).1 = L := by
  unfold Ledger.deductScrip at *
  by_cases h1 : amount < 0
  · simp [h1]
  · by_cases h2 : ¬ L.canAffordScrip pid amount
    · simp [h1, h2]
    · simp [h1, h2] at h

theorem Ledger.getScrip_deduct_self (L : Ledger) (pid : String) (amount : Int)
    (h : (L.deductScrip pid amount).2 = true) :
    (L.deductScrip pid amount).1.getScrip pid = L.getScrip pid - amount := by
  unfold Ledger.deductScrip at *
  by_cases h1 : amount < 0
  · simp [h1] at h
  · by_cases h2 : ¬ L.canAffordScrip pid amount
    · simp [h1, h2] at h
    · simp [h1, h2, Ledger.getScrip, alGet_alSet_self]

theorem Ledger.getScrip_deduct_ne (L : Ledger) (pid q : String) (amount : Int)
    (h : q ≠ pid) : (L.deductScrip pid amount).1.getScrip q = L.getScrip q := by
  unfold Ledger.deductScrip
  by_cases h1 : amount < 0
  · simp [h1]
  · by_cases h2 : ¬ L.canAffordScrip pid amount
    · simp [h1, h2]
    · simp [h1, h2, Ledger.getScrip, alGet_alSet_ne _ _ _ _ h]

-- ### C2: transfer is all-or-nothing

/-- Concrete ledger used for the C2 counterexample: one principal `alice`
with 5 scrip. -/
def ledgerC2 : Ledger := { scrip := [("alice", 5)], resources := [] }

/-- C2 counterexample: the claim quantifies over all principals `a`, `b`,
including `a = b`.  A self-transfer `transfer("alice", "alice", 3)` succeeds
(returns `true`) but `alice`'s balance does not decrease by 3 — it is
unchanged at 5.  So "if it succeeds, a's balance decreases by exactly n" fails
at `a = b = "alice"`, `n = 3`. -/
theorem transfer_self_counterexample :
    (ledgerC2.transferScrip "alice" "alice" 3).2 = true ∧
    (ledgerC2.transferScrip "alice" "alice" 3).1.getScrip "alice" = 5 ∧
    ledgerC2.getScrip "alice" - 3 = 2 := by decide

/-- C2 (amended): for **distinct** principals `a ≠ b` and every amount `n`,
`transfer(a, b, n)` is all-or-nothing: on failure neither balance changes; on
success `a`'s balance decreases by exactly `n` and `b`'s increases by exactly
`n`. -/
theorem transfer_all_or_nothing (L : Ledger) (a b : String) (n : Int) (hab : a ≠ b) :
    ((L.transferScrip a b n).2 = false →
      (L.transferScrip a b n).1.getScrip a = L.getScrip a ∧
      (L.transferScrip a b n).1.getScrip b = L.getScrip b) ∧
    ((L.transferScrip a b n).2 = true →
      (L.transferScrip a b n).1.getScrip a = L.getScrip a - n ∧
      (L.transferScrip a b n).1.getScrip b = L.getScrip b + n) := by
  unfold Ledger.transferScrip
  by_cases hn : n ≤ 0
  · simp [hn]
  · simp only [hn, if_false]
    cases hd : L.deductScrip a n with
    | mk L1 ok =>
      cases ok with
      | false =>
        simp only
        constructor
        · intro _
          have hL1 : L1 = L := by
            have := Ledger.deductScrip_fst_of_false L a n (by rw [hd])
            rwa [hd] at this
          rw [hL1]; exact ⟨rfl, rfl⟩
        · intro hcontra; cases hcontra
      | true =>
        simp only
        constructor
        · intro hcontra; cases hcontra
        · intro _
          have ha : L1.getScrip a = L.getScrip a - n := by
            have := Ledger.getScrip_deduct_self L a n (by rw [hd])
            rwa [hd] at this
          have hb : L1.getScrip b = L.getScrip b := by
            have := Ledger.getScrip_deduct_ne L a b n hab.symm
            rwa [hd] at this
          constructor
          · rw [Ledger.getScrip_credit_ne _ _ _ _ hab, ha]
          · rw [Ledger.getScrip_credit_self, hb]

/-- Witness for `transfer_all_or_nothing` at a concrete input: transferring 3
from `alice` (balance 5) to `bob` (balance 1) succeeds, leaving 2 and 4. -/
theorem transfer_all_or_nothing_witness :
    let L : Ledger := { scrip := [("alice", 5), ("bob", 1)], resources := [] }
    (L.transferScrip "alice" "bob" 3).2 = true ∧
    (L.transferScrip "alice" "bob" 3).1.getScrip "alice" = L.getScrip "alice" - 3 ∧
    (L.transferScrip "alice" "bob" 3).1.getScrip "bob" = L.getScrip "bob" + 3 := by
  refine ⟨by decide, ?_, ?_⟩
  · exact ((transfer_all_or_nothing _ "alice" "bob" 3 (by decide)).2 (by decide)).1
  · exact ((transfer_all_or_nothing _ "alice" "bob" 3 (by decide)).2 (by decide)).2

-- ### UBI loop lemmas

theorem map_snd_enumFrom {α : Type} (l : List α) (s : Nat) :
    (List.enumFrom s l).map Prod.snd = l := by
  induction l generalizing s with
  | nil => rfl
  | cons x xs ih => simp only [List.enumFrom, List.map_cons, ih]

theorem Ledger.ubiLoop_getScrip_not_mem (entries : List (Nat × String)) (per rem : Int)
    (q : String) :
    ∀ (L : Ledger), q ∉ entries.map Prod.snd →
      (Ledger.ubiLoop L entries per rem).1.getScrip q = L.getScrip q := by
  induction entries with
  | nil => intro L _; rfl
  | cons e rest ih =>
    intro L hq
    obtain ⟨idx, pid⟩ := e
    simp only [List.map_cons, List.mem_cons, not_or] at hq
    obtain ⟨hq1, hq2⟩ := hq
    unfold Ledger.ubiLoop
    by_cases hs : 0 < per + (if (idx : Int) < rem then 1 else 0)
    · simp only [hs, if_true]
      rw [ih _ hq2, Ledger.getScrip_credit_ne _ _ _ _ hq1]
    · simp only [hs, if_false]
      exact ih _ hq2

theorem Ledger.ubiLoop_payout_not_mem (entries : List (Nat × String)) (per rem : Int)
    (q : String) :
    ∀ (L : Ledger), q ∉ entries.map Prod.snd →
      alGet (Ledger.ubiLoop L entries per rem).2 q = none := by
  induction entries with
  | nil => intro L _; rfl
  | cons e rest ih =>
    intro L hq
    obtain ⟨idx, pid⟩ := e
    simp only [List.map_cons, List.mem_cons, not_or] at hq
    obtain ⟨hq1, hq2⟩ := hq
    unfold Ledger.ubiLoop
    by_cases hs : 0 < per + (if (idx : Int) < rem then 1 else 0)
    · simp only [hs, if_true]
      have hne : ¬ (pid = q) := fun h => hq1 h.symm
      simpa [alGet, List.find?, hne] using ih _ hq2
    · simp only [hs, if_false]
      exact ih _ hq2

theorem Ledger.ubiLoop_getScrip_at (per rem : Int) (hper : 0 ≤ per) :
    ∀ (l : List String) (s : Nat) (L : Ledger), l.Nodup →
      ∀ (i : Nat) (hi : i < l.length),
        (Ledger.ubiLoop L (List.enumFrom s l) per rem).1.getScrip (l.get ⟨i, hi⟩) =
          L.getScrip (l.get ⟨i, hi⟩) +
            (per + (if ((s + i : Nat) : Int) < rem then 1 else 0)) := by
  intro l
  induction l with
  | nil => intro s L _ i hi; cases hi
  | cons x xs ih =>
    intro s L hnd i hi
    have hxnotmem : x ∉ xs := (List.nodup_cons.mp hnd).1
    have hndxs : xs.Nodup := (List.nodup_cons.mp hnd).2
    cases i with
    | zero =>
      simp only [List.get]
      show (Ledger.ubiLoop L ((s, x) :: List.enumFrom (s + 1) xs) per rem).1.getScrip x = _
      unfold Ledger.ubiLoop
      by_cases hs : 0 < per + (if (s : Int) < rem then 1 else 0)
      · simp only [hs, if_true]
        have hm : x ∉ (List.enumFrom (s + 1) xs).map Prod.snd := by
          rw [map_snd_enumFrom]; exact hxnotmem
        rw [Ledger.ubiLoop_getScrip_not_mem _ _ _ _ _ hm, Ledger.getScrip_credit_self]
        simp only [Nat.add_zero]
      · simp only [hs, if_false]
        have hm : x ∉ (List.enumFrom (s + 1) xs).map Prod.snd := by
          rw [map_snd_enumFrom]; exact hxnotmem
        rw [Ledger.ubiLoop_getScrip_not_mem _ _ _ _ _ hm]
        have hz : per + (if (s : Int) < rem then 1 else 0) = 0 := by
          by_cases hlt : (s : Int) < rem <;> simp [hlt] at hs ⊢ <;> omega
        simp only [Nat.add_zero, hz, add_zero]
    | succ j =>
      have hj : j < xs.length := by simpa using hi
      have hget : (x :: xs).get ⟨j + 1, hi⟩ = xs.get ⟨j, hj⟩ := rfl
      have htne : xs.get ⟨j, hj⟩ ≠ x := by
        intro h; exact hxnotmem (h ▸ xs.get_mem j hj)
      rw [hget]
      show (Ledger.ubiLoop L ((s, x) :: List.enumFrom (s + 1) xs) per rem).1.getScrip _ = _
      unfold Ledger.ubiLoop
      by_cases hs : 0 < per + (if (s : Int) < rem then 1 else 0)
      · simp only [hs, if_true]
        rw [ih (s + 1) _ hndxs j hj, Ledger.getScrip_credit_ne _ _ _ _ htne]
        have : ((s + (j + 1) : Nat) : Int) = (((s + 1) + j : Nat) : Int) := by push_cast; ring
        rw [this]
      · simp only [hs, if_false]
        rw [ih (s + 1) _ hndxs j hj]
        have : ((s + (j + 1) : Nat) : Int) = (((s + 1) + j : Nat) : Int) := by push_cast; ring
        rw [this]

/-- Total of the shares assigned to an enumerated recipient list. -/
def shareSum (entries : List (Nat × String)) (per rem : Int) : Int :=
  (entries.map (fun e => per + (if (e.1 : Int) < rem then 1 else 0))).sum

theorem Ledger.ubiLoop_payout_sum (entries : List (Nat × String)) (per rem : Int)
    (hper : 0 ≤ per) :
    ∀ (L : Ledger),
      ((Ledger.ubiLoop L entries per rem).2.map Prod.snd).sum = shareSum entries per rem := by
  induction entries with
  | nil => intro L; rfl
  | cons e rest ih =>
    intro L
    obtain ⟨idx, pid⟩ := e
    have hsum : shareSum ((idx, pid) :: rest) per rem
        = (per + (if (idx : Int) < rem then 1 else 0)) + shareSum rest per rem := by
      simp [shareSum]
    unfold Ledger.ubiLoop
    by_cases hs : 0 < per + (if (idx : Int) < rem then 1 else 0)
    · simp only [hs, if_true, List.map_cons, List.sum_cons]
      rw [ih, hsum]
    · simp only [hs, if_false]
      rw [ih, hsum]
      have hz : per + (if (idx : Int) < rem then 1 else 0) = 0 := by
        by_cases hlt : (idx : Int) < rem <;> simp [hlt] at hs ⊢ <;> omega
      rw [hz, zero_add]

theorem shareSum_enumFrom (per rem : Int) :
    ∀ (l : List String) (s : Nat),
      shareSum (List.enumFrom s l) per rem =
        l.length * per + (((rem - s).toNat ⊓ l.length : Nat) : Int) := by
  intro l
  induction l with
  | nil => intro s; simp [shareSum]
  | cons x xs ih =>
    intro s
    have hstep : shareSum (List.enumFrom s (x :: xs)) per rem
        = (per + (if (s : Int) < rem then 1 else 0)) + shareSum (List.enumFrom (s + 1) xs) per rem := by
      simp [shareSum, List.enumFrom]
    rw [hstep, ih (s + 1)]
    by_cases hlt : (s : Int) < rem
    · simp only [hlt, if_true, List.length_cons]
      have : ((((rem - s).toNat ⊓ (xs.length + 1) : Nat)) : Int)
          = 1 + (((rem - (s + 1 : Nat)).toNat ⊓ xs.length : Nat) : Int) := by
        push_cast
        omega
      rw [this]; push_cast; ring
    · simp only [hlt, if_false, List.length_cons]
      have : ((((rem - s).toNat ⊓ (xs.length + 1) : Nat)) : Int)
          = (((rem - (s + 1 : Nat)).toNat ⊓ xs.length : Nat) : Int) := by
        push_cast
        omega
      rw [this]; push_cast; ring

theorem mem_ubiRecipients_not_system (L : Ledger) (exclude : Option String) (pid : String)
    (h : pid ∈ L.ubiRecipients exclude) : pyStartsWith pid "SYSTEM" = false := by
  unfold Ledger.ubiRecipients at h
  cases exclude with
  | none =>
    simp only at h
    have := (List.mem_filter.mp h).2
    simpa using this
  | some e =>
    simp only at h
    have h1 := (List.mem_filter.mp h).1
    have := (List.mem_filter.mp h1).2
    simpa using this

-- ### C10: distribute_ubi never credits SYSTEM-prefixed principals

/-- C10: `distribute_ubi` filters out every principal whose id starts with
`"SYSTEM"` before computing shares, so such a principal never appears in the
payout map and its balance is unchanged, for every amount and exclusion. -/
theorem distribute_ubi_never_credits_system (L : Ledger) (amount : Int)
    (exclude : Option String) (pid : String) (hsys : pyStartsWith pid "SYSTEM" = true) :
    alGet (L.distributeUbi amount exclude).2 pid = none ∧
    (L.distributeUbi amount exclude).1.getScrip pid = L.getScrip pid := by
  unfold Ledger.distributeUbi
  by_cases hc : amount ≤ 0 ∨ L.ubiRecipients exclude = []
  · simp [hc, alGet]
  · simp only [hc, if_false]
    have hmem : pid ∉ (L.ubiRecipients exclude).enum.map Prod.snd := by
      have henum : (L.ubiRecipients exclude).enum.map Prod.snd = L.ubiRecipients exclude := by
        exact map_snd_enumFrom (L.ubiRecipients exclude) 0
      rw [henum]
      intro hmem
      rw [mem_ubiRecipients_not_system L exclude pid hmem] at hsys
      cases hsys
    exact ⟨Ledger.ubiLoop_payout_not_mem _ _ _ _ _ hmem,
      Ledger.ubiLoop_getScrip_not_mem _ _ _ _ _ hmem⟩

/-- Witness for C10: with principals `SYSTEM_KERNEL`, `a`, `b` and a UBI of 3,
`SYSTEM_KERNEL` receives no payout entry and its balance stays 7. -/
theorem distribute_ubi_never_credits_system_witness :
    pyStartsWith "SYSTEM_KERNEL" "SYSTEM" = true ∧
    alGet (Ledger.distributeUbi
      { scrip := [("SYSTEM_KERNEL", 7), ("a", 0), ("b", 0)], resources := [] } 3 none).2
      "SYSTEM_KERNEL" = none ∧
    (Ledger.distributeUbi
      { scrip := [("SYSTEM_KERNEL", 7), ("a", 0), ("b", 0)], resources := [] } 3 none).1.getScrip
      "SYSTEM_KERNEL" =
      Ledger.getScrip { scrip := [("SYSTEM_KERNEL", 7), ("a", 0), ("b", 0)], resources := [] }
        "SYSTEM_KERNEL" :=
  ⟨by decide,
    distribute_ubi_never_credits_system _ 3 none "SYSTEM_KERNEL" (by decide)⟩

-- ### C4: distribute_ubi splits the amount exactly

/-- Concrete ledger for the C4 counterexample: a `SYSTEM`-prefixed principal
exists alongside two agents. -/
def ledgerC4 : Ledger :=
  { scrip := [("SYSTEM_K", 0), ("a", 0), ("b", 0)], resources := [] }

/-- C4 counterexample: the claim calls every principal other than the
excluded one "eligible".  With principals `SYSTEM_K`, `a`, `b`, amount 3 and
no exclusion, `SYSTEM_K` is a principal and is not excluded, yet it receives
no payout entry and no credit: the code also filters out ids starting with
`"SYSTEM"`, so the shares are computed over 2 recipients, not 3. -/
theorem distribute_ubi_claim_counterexample :
    (ledgerC4.scrip.map Prod.fst).contains "SYSTEM_K" = true ∧
    alGet (ledgerC4.distributeUbi 3 none).2 "SYSTEM_K" = none ∧
    (ledgerC4.distributeUbi 3 none).1.getScrip "SYSTEM_K" = 0 ∧
    alGet (ledgerC4.distributeUbi 3 none).2 "a" = some 2 ∧
    alGet (ledgerC4.distributeUbi 3 none).2 "b" = some 1 := by decide

/-- C4 (amended): for every positive amount and non-empty recipient set —
where eligible recipients are all principals except the excluded one **and
except ids starting with `"SYSTEM"`** — `distribute_ubi` credits the recipient
at position `idx` exactly `amount // n + 1` if `idx < amount % n` and
`amount // n` otherwise (an even share plus the remainder spread one unit each
over the first `amount % n` recipients in deterministic ledger order), and the
recorded payouts sum to exactly `amount`. -/
theorem distribute_ubi_exact (L : Ledger) (amount : Int) (exclude : Option String)
    (hpos : 0 < amount) (hnd : (L.scrip.map Prod.fst).Nodup)
    (hne : L.ubiRecipients exclude ≠ []) :
    (∀ (idx : Nat) (pid : String), (L.ubiRecipients exclude).get? idx = some pid →
      (L.distributeUbi amount exclude).1.getScrip pid =
        L.getScrip pid + (amount / ((L.ubiRecipients exclude).length : Int) +
          (if (idx : Int) < amount % ((L.ubiRecipients exclude).length : Int) then 1 else 0))) ∧
    ((L.distributeUbi amount exclude).2.map Prod.snd).sum = amount := by
  have hndr : (L.ubiRecipients exclude).Nodup := by
    unfold Ledger.ubiRecipients
    cases exclude with
    | none => exact hnd.filter _
    | some e => exact (hnd.filter _).filter _
  set r := L.ubiRecipients exclude with hr
  have hlen : 0 < r.length := List.length_pos.mpr hne
  have hnInt : (0 : Int) < (r.length : Int) := by exact_mod_cast hlen
  have hper : 0 ≤ amount / (r.length : Int) := Int.ediv_nonneg hpos.le hnInt.le
  have hcond : ¬ (amount ≤ 0 ∨ r = []) := by
    push_neg
    exact ⟨by omega, hne⟩
  constructor
  · intro idx pid hget
    obtain ⟨hi, hgv⟩ := List.get?_eq_some.mp hget
    unfold Ledger.distributeUbi
    rw [← hr]
    simp only [hcond, if_false]
    have := Ledger.ubiLoop_getScrip_at (amount / (r.length : Int))
      (amount % (r.length : Int)) hper r 0 L hndr idx hi
    rw [show List.enumFrom 0 r = r.enum from rfl] at this
    rw [hgv] at this
    simpa using this
  · unfold Ledger.distributeUbi
    rw [← hr]
    simp only [hcond, if_false]
    rw [Ledger.ubiLoop_payout_sum _ _ _ hper]
    rw [show r.enum = List.enumFrom 0 r from rfl, shareSum_enumFrom]
    have hrem0 : 0 ≤ amount % (r.length : Int) := Int.emod_nonneg amount (by omega)
    have hremlt : amount % (r.length : Int) < (r.length : Int) :=
      Int.emod_lt_of_pos amount hnInt
    have hmin : (((amount % (r.length : Int) - (0 : Nat)).toNat ⊓ r.length : Nat) : Int)
        = amount % (r.length : Int) := by
      push_cast
      omega
    rw [hmin]
    have := Int.ediv_add_emod amount (r.length : Int)
    linarith [this]

/-- Witness for `distribute_ubi_exact`: two recipients, amount 3 → shares 2
and 1, summing to 3. -/
theorem distribute_ubi_exact_witness :
    ((Ledger.distributeUbi { scrip := [("a", 0), ("b", 0)], resources := [] } 3 none).2.map
      Prod.snd).sum = 3 ∧
    (Ledger.distributeUbi { scrip := [("a", 0), ("b", 0)], resources := [] } 3 none).1.getScrip
      "a" = 2 := by
  have h := distribute_ubi_exact { scrip := [("a", 0), ("b", 0)], resources := [] } 3 none
    (by decide) (by decide) (by decide)
  refine ⟨h.2, ?_⟩
  have h0 := h.1 0 "a" (by decide)
  rw [h0]
  decide

-- ### Mint auction (`world/mint.py`)

/-- `Ledger.principal_exists`. -/
def Ledger.principalExists (L : Ledger) (pid : String) : Bool :=
  (alGet L.scrip pid).isSome || (alGet L.resources pid).isSome

/-- A pending mint submission (`MintSubmission`): the escrowed bid was
deducted from the bidder at submit time.  The `submitted_at_event` counter is
irrelevant to the verified properties and omitted. -/
structure MintSubmission where
  submissionId : String
  principalId : String
  artifactId : String
  bid : Int
deriving Repr, DecidableEq, Inhabited

/-- Resolution record (`MintResult`); `score_reason` and `resolved_at_event`
carry no verified content and are omitted. -/
structure MintResult where
  winnerId : Option String
  artifactId : Option String
  winningBid : Int
  pricePaid : Int
  score : Option Int
  scripMinted : Int
  ubiDistributed : List (String × Int)
  error : Option String
deriving Repr, DecidableEq

/-- Mint auction state (`MintAuction`): configuration plus the pending
submission dict, insertion-ordered (`dict.values()` iterates in insertion
order).  The wall-clock phase fields drive only `update()`'s scheduling and
are not part of the verified operations. -/
structure MintAuction where
  minimumBid : Int
  mintRatio : Int
  submissions : List MintSubmission
deriving Repr, DecidableEq

/-- `MintAuction.submit`.  The artifact-store checks are passed in as
booleans, in source order: `artifactOk` (artifact exists and not deleted) and
`authorized` (submitter is the artifact's owner, writer, or principal).  The
Python method raises `ValueError` on each failed check (converted to an
`invalid_submission` action error by the action executor); here a failure is
`.error` with no state change.  `sid` stands for the fresh uuid-based
submission id. -/
def MintAuction.submit (A : MintAuction) (L : Ledger) (artifactOk authorized : Bool)
    (pid aid sid : String) (bid : Int) : Except String (MintAuction × Ledger) :=
  if ¬ artifactOk then .error "artifact not found"
  else if bid < A.minimumBid then .error "bid must meet minimum"
  else if ¬ (L.canAffordScrip pid bid) then .error "insufficient scrip for bid"
  else if ¬ authorized then .error "submitter is not authorized for artifact"
  else
    .ok ({ A with submissions := A.submissions ++
            [{ submissionId := sid, principalId := pid, artifactId := aid, bid := bid }] },
         (L.deductScrip pid bid).1)

/-- `MintAuction.cancel`: refund the escrowed bid and drop the submission;
`false` (no state change) if the submission is missing or owned by someone
else. -/
def MintAuction.cancel (A : MintAuction) (L : Ledger) (pid sid : String) :
    (MintAuction × Ledger) × Bool :=
  match A.submissions.find? (fun s => decide (s.submissionId = sid)) with
  | none => ((A, L), false)
  | some s =>
    if s.principalId ≠ pid then ((A, L), false)
    else
      (({ A with submissions := A.submissions.filter (fun t => decide (t.submissionId ≠ sid)) },
        L.creditScrip pid s.bid), true)

/-- Insert a submission into a descending-by-bid sorted list, before the
first strictly-lower bid.  `sortByBidDesc` below folds this over the list:
the result is the unique stable descending order, which is what Python's
stable `submissions.sort(key=lambda item: item.bid, reverse=True)`
produces. -/
def insertByBidDesc (x : MintSubmission) : List MintSubmission → List MintSubmission
  | [] => [x]
  | y :: ys => if x.bid < y.bid then y :: insertByBidDesc x ys else x :: y :: ys

/-- Stable descending-by-bid sort of the submission list. -/
def sortByBidDesc : List MintSubmission → List MintSubmission
  | [] => []
  | x :: xs => insertByBidDesc x (sortByBidDesc xs)

/-- `MintAuction.resolve`.  External collaborators are passed as parameters:
`artifactOk` says whether the winning artifact is still in the store, and
`score` is the scorer's verdict for it (the `MintScorer` clamps its result to
`[0, 100]`).  Mirrors the source: empty pool → "no submissions" record; else
sort descending, second-highest bid (or `minimum_bid` for a single
submission) as price, refund losers in full, refund the winner
`bid - price` if positive, mint `score // max(1, mint_ratio)` if positive,
then redistribute the price as UBI excluding the winner and clear the
pool. -/
def MintAuction.resolve (A : MintAuction) (L : Ledger) (score : Int) (artifactOk : Bool) :
    (MintAuction × Ledger) × MintResult :=
  if A.submissions = [] then
    ((A, L),
      { winnerId := none, artifactId := none, winningBid := 0, pricePaid := 0,
        score := none, scripMinted := 0, ubiDistributed := [],
        error := some "no submissions" })
  else
    let sorted := sortByBidDesc A.submissions
    let winner := sorted.headI
    let secondPrice : Int :=
      match sorted.tail with
      | [] => A.minimumBid
      | s2 :: _ => s2.bid
    let L1 := sorted.tail.foldl (fun acc s => acc.creditScrip s.principalId s.bid) L
    let refund := winner.bid - secondPrice
    let L2 := if 0 < refund then L1.creditScrip winner.principalId refund else L1
    let scoreOpt : Option Int := if artifactOk then some score else none
    let minted : Int := if artifactOk then score / (max 1 A.mintRatio) else 0
    let errorOpt : Option String := if artifactOk then none else some "winner artifact disappeared"
    let L3 := if 0 < minted then L2.creditScrip winner.principalId minted else L2
    let ubiRes := L3.distributeUbi secondPrice (some winner.principalId)
    (({ A with submissions := [] }, ubiRes.1),
      { winnerId := some winner.principalId, artifactId := some winner.artifactId,
        winningBid := winner.bid, pricePaid := secondPrice, score := scoreOpt,
        scripMinted := minted, ubiDistributed := ubiRes.2, error := errorOpt })

-- ### Sorting lemmas

theorem mem_insertByBidDesc (x t : MintSubmission) (l : List MintSubmission) :
    t ∈ insertByBidDesc x l ↔ t = x ∨ t ∈ l := by
  induction l with
  | nil => simp [insertByBidDesc]
  | cons y ys ih =>
    by_cases h : x.bid < y.bid
    · simp only [insertByBidDesc, h, if_true, List.mem_cons, ih]
      tauto
    · simp only [insertByBidDesc, h, if_false, List.mem_cons]

theorem insertByBidDesc_perm (x : MintSubmission) (l : List MintSubmission) :
    List.Perm (insertByBidDesc x l) (x :: l) := by
  induction l with
  | nil => rfl
  | cons y ys ih =>
    by_cases h : x.bid < y.bid
    · simp only [insertByBidDesc, h, if_true]
      exact (ih.cons y).trans (List.Perm.swap x y ys)
    · simp [insertByBidDesc, h]

theorem sortByBidDesc_perm (l : List MintSubmission) : List.Perm (sortByBidDesc l) l := by
  induction l with
  | nil => rfl
  | cons x xs ih =>
    exact (insertByBidDesc_perm x (sortByBidDesc xs)).trans (ih.cons x)

theorem insertByBidDesc_pairwise (x : MintSubmission) (l : List MintSubmission)
    (hl : l.Pairwise (fun a b => b.bid ≤ a.bid)) :
    (insertByBidDesc x l).Pairwise (fun a b => b.bid ≤ a.bid) := by
  induction l with
  | nil => simp [insertByBidDesc]
  | cons y ys ih =>
    obtain ⟨hy, hys⟩ := List.pairwise_cons.mp hl
    by_cases h : x.bid < y.bid
    · simp only [insertByBidDesc, h, if_true]
      refine List.pairwise_cons.mpr ⟨?_, ih hys⟩
      intro t ht
      rcases (mem_insertByBidDesc x t ys).mp ht with h1 | h1
      · subst h1; omega
      · exact hy t h1
    · simp only [insertByBidDesc, h, if_false]
      refine List.pairwise_cons.mpr ⟨?_, hl⟩
      intro t ht
      rcases List.mem_cons.mp ht with h1 | h1
      · subst h1; omega
      · have := hy t h1; omega

theorem sortByBidDesc_pairwise (l : List MintSubmission) :
    (sortByBidDesc l).Pairwise (fun a b => b.bid ≤ a.bid) := by
  induction l with
  | nil => simp [sortByBidDesc]
  | cons x xs ih => exact insertByBidDesc_pairwise x (sortByBidDesc xs) ih

-- ### Non-negativity lemmas

theorem Ledger.getScrip_nonneg_of_all (L : Ledger)
    (h : ∀ kv ∈ L.scrip, 0 ≤ kv.2) (p : String) : 0 ≤ L.getScrip p := by
  unfold Ledger.getScrip alGet
  cases hf : L.scrip.find? (fun kv => decide (kv.1 = p)) with
  | none => simp
  | some kv =>
    simp only [Option.map_some', Option.getD_some]
    exact h kv (List.mem_of_find?_eq_some hf)

theorem Ledger.getScrip_credit_nonneg (L : Ledger) (pid : String) (a : Int)
    (hL : ∀ p, 0 ≤ L.getScrip p) (ha : 0 ≤ a) (p : String) :
    0 ≤ (L.creditScrip pid a).getScrip p := by
  by_cases hp : p = pid
  · subst hp
    rw [Ledger.getScrip_credit_self]
    have := hL p
    omega
  · rw [Ledger.getScrip_credit_ne _ _ _ _ hp]
    exact hL p

theorem Ledger.getScrip_deduct_nonneg (L : Ledger) (pid : String) (a : Int)
    (hL : ∀ p, 0 ≤ L.getScrip p) (p : String) :
    0 ≤ (L.deductScrip pid a).1.getScrip p := by
  unfold Ledger.deductScrip
  by_cases h1 : a < 0
  · simp only [h1, if_true]
    exact hL p
  · by_cases h2 : ¬ L.canAffordScrip pid a
    · simp only [h1, h2, if_false, if_true]
      exact hL p
    · simp only [h1, h2, if_false]
      by_cases hp : p = pid
      · subst hp
        simp only [Ledger.getScrip, alGet_alSet_self, Option.getD_some]
        have haff : a ≤ L.getScrip p := by
          simpa [Ledger.canAffordScrip] using not_not.mp h2
        simp only [Ledger.getScrip] at haff
        omega
      · simp only [Ledger.getScrip, alGet_alSet_ne _ _ _ _ hp]
        exact hL p

theorem Ledger.transferScrip_nonneg (L : Ledger) (a b : String) (n : Int)
    (hL : ∀ p, 0 ≤ L.getScrip p) (p : String) :
    0 ≤ (L.transferScrip a b n).1.getScrip p := by
  unfold Ledger.transferScrip
  by_cases hn : n ≤ 0
  · simp only [hn, if_true]
    exact hL p
  · simp only [hn, if_false]
    rcases hdp : L.deductScrip a n with ⟨L1, ok⟩
    have hL1 : ∀ q, 0 ≤ L1.getScrip q := by
      intro q
      have := Ledger.getScrip_deduct_nonneg L a n hL q
      rwa [hdp] at this
    cases ok with
    | false => exact hL1 p
    | true => exact Ledger.getScrip_credit_nonneg L1 b n hL1 (by omega) p

theorem creditFold_nonneg (losers : List MintSubmission) :
    ∀ (L : Ledger), (∀ p, 0 ≤ L.getScrip p) → (∀ s ∈ losers, 0 ≤ s.bid) →
      ∀ p, 0 ≤ (losers.foldl (fun acc s => acc.creditScrip s.principalId s.bid) L).getScrip p := by
  induction losers with
  | nil => intro L hL _ p; exact hL p
  | cons s rest ih =>
    intro L hL hb p
    simp only [List.foldl_cons]
    exact ih _ (fun q => Ledger.getScrip_credit_nonneg L _ _ hL (hb s (by simp)) q)
      (fun t ht => hb t (by simp [ht])) p

theorem Ledger.ubiLoop_nonneg (entries : List (Nat × String)) (per rem : Int) :
    ∀ (L : Ledger), (∀ p, 0 ≤ L.getScrip p) →
      ∀ p, 0 ≤ (Ledger.ubiLoop L entries per rem).1.getScrip p := by
  induction entries with
  | nil => intro L hL p; exact hL p
  | cons e rest ih =>
    intro L hL p
    obtain ⟨idx, pid⟩ := e
    unfold Ledger.ubiLoop
    by_cases hs : 0 < per + (if (idx : Int) < rem then 1 else 0)
    · simp only [hs, if_true]
      exact ih _ (fun q => Ledger.getScrip_credit_nonneg _ _ _ hL (le_of_lt hs) q) p
    · simp only [hs, if_false]
      exact ih _ hL p

theorem Ledger.distributeUbi_nonneg (L : Ledger) (amount : Int) (exclude : Option String)
    (hL : ∀ p, 0 ≤ L.getScrip p) (p : String) :
    0 ≤ (L.distributeUbi amount exclude).1.getScrip p := by
  unfold Ledger.distributeUbi
  by_cases hc : amount ≤ 0 ∨ L.ubiRecipients exclude = []
  · simp only [hc, if_true]
    exact hL p
  · simp only [hc, if_false]
    exact Ledger.ubiLoop_nonneg _ _ _ L hL p

theorem MintAuction.resolve_nonneg (A : MintAuction) (L : Ledger) (score : Int) (aok : Bool)
    (hL : ∀ p, 0 ≤ L.getScrip p) (hb : ∀ s ∈ A.submissions, 0 ≤ s.bid) (p : String) :
    0 ≤ (A.resolve L score aok).1.2.getScrip p := by
  unfold MintAuction.resolve
  by_cases hemp : A.submissions = []
  · simp only [hemp, if_true]
    exact hL p
  · simp only [hemp, if_false]
    refine Ledger.distributeUbi_nonneg _ _ _ ?_ p
    intro q
    have hbids' : ∀ s ∈ (sortByBidDesc A.submissions).tail, 0 ≤ s.bid := by
      intro s hs
      exact hb s ((sortByBidDesc_perm A.submissions).subset (List.tail_subset _ hs))
    have h1 : ∀ r, 0 ≤ ((sortByBidDesc A.submissions).tail.foldl
        (fun acc s => acc.creditScrip s.principalId s.bid) L).getScrip r :=
      creditFold_nonneg _ L hL hbids'
    have h2 : ∀ r, 0 ≤ (if 0 < (sortByBidDesc A.submissions).headI.bid -
          (match (sortByBidDesc A.submissions).tail with
            | [] => A.minimumBid
            | s2 :: _ => s2.bid) then
        ((sortByBidDesc A.submissions).tail.foldl
          (fun acc s => acc.creditScrip s.principalId s.bid) L).creditScrip
          (sortByBidDesc A.submissions).headI.principalId
          ((sortByBidDesc A.submissions).headI.bid -
            (match (sortByBidDesc A.submissions).tail with
              | [] => A.minimumBid
              | s2 :: _ => s2.bid))
      else
        (sortByBidDesc A.submissions).tail.foldl
          (fun acc s => acc.creditScrip s.principalId s.bid) L).getScrip r := by
      intro r
      by_cases hr : 0 < (sortByBidDesc A.submissions).headI.bid -
          (match (sortByBidDesc A.submissions).tail with
            | [] => A.minimumBid
            | s2 :: _ => s2.bid)
      · rw [if_pos hr]
        exact Ledger.getScrip_credit_nonneg _ _ _ h1 (le_of_lt hr) r
      · rw [if_neg hr]
        exact h1 r
    by_cases hm : 0 < (if aok then score / (max 1 A.mintRatio) else 0)
    · rw [if_pos hm]
      exact Ledger.getScrip_credit_nonneg _ _ _ h2 (le_of_lt hm) q
    · rw [if_neg hm]
      exact h2 q

-- ### C1: scrip is never negative

/-- One scrip-moving kernel operation as dispatched by the action layer: a
transfer action, a mint action (with its artifact/capability/recipient checks
abstracted to `checksOk` and the ledger's own `principal_exists`), and the
auction operations.  The booleans stand for checks that consult the artifact
store; `score` is the external scorer's verdict for the winning artifact. -/
inductive ScripOp where
  | transferOp (fromId toId : String) (amount : Int)
  | mintOp (checksOk : Bool) (recipient : String) (amount : Int)
  | submitOp (artifactOk authorized : Bool) (pid aid sid : String) (bid : Int)
  | cancelOp (pid sid : String)
  | resolveOp (score : Int) (artifactOk : Bool)

/-- Apply one operation to the auction + ledger state.  A failed operation
(validation or authorization rejection, or a `ValueError` raised by `submit`)
leaves the state unchanged, exactly as in the action executor. -/
def scripStep (st : MintAuction × Ledger) (op : ScripOp) : MintAuction × Ledger :=
  match op with
  | .transferOp a b n => (st.1, (st.2.transferScrip a b n).1)
  | .mintOp ok r n =>
      if ok = true ∧ st.2.principalExists r = true ∧ 0 < n then (st.1, st.2.creditScrip r n)
      else st
  | .submitOp aok auth pid aid sid bid =>
      match st.1.submit st.2 aok auth pid aid sid bid with
      | .ok st' => st'
      | .error _ => st
  | .cancelOp pid sid => (st.1.cancel st.2 pid sid).1
  | .resolveOp score aok => (st.1.resolve st.2 score aok).1

/-- Inductive invariant for C1: the configured minimum bid is non-negative,
every balance is non-negative, and every escrowed bid is non-negative. -/
def ScripInvariant (st : MintAuction × Ledger) : Prop :=
  0 ≤ st.1.minimumBid ∧ (∀ p, 0 ≤ st.2.getScrip p) ∧ ∀ s ∈ st.1.submissions, 0 ≤ s.bid

theorem scripStep_preserves (st : MintAuction × Ledger) (op : ScripOp)
    (h : ScripInvariant st) : ScripInvariant (scripStep st op) := by
  obtain ⟨hmin, hbal, hbids⟩ := h
  cases op with
  | transferOp a b n =>
    exact ⟨hmin, fun p => Ledger.transferScrip_nonneg st.2 a b n hbal p, hbids⟩
  | mintOp ok r n =>
    by_cases hc : ok = true ∧ st.2.principalExists r = true ∧ 0 < n
    · simp only [scripStep, hc, if_true]
      exact ⟨hmin, fun p => Ledger.getScrip_credit_nonneg _ _ _ hbal hc.2.2.le p, hbids⟩
    · simp only [scripStep, hc, if_false]
      exact ⟨hmin, hbal, hbids⟩
  | submitOp aok auth pid aid sid bid =>
    simp only [scripStep]
    cases hsub : st.1.submit st.2 aok auth pid aid sid bid with
    | error e => exact ⟨hmin, hbal, hbids⟩
    | ok st' =>
      unfold MintAuction.submit at hsub
      by_cases h1 : ¬ aok = true
      · rw [if_pos h1] at hsub; cases hsub
      · rw [if_neg h1] at hsub
        by_cases h2 : bid < st.1.minimumBid
        · rw [if_pos h2] at hsub; cases hsub
        · rw [if_neg h2] at hsub
          by_cases h3 : ¬ st.2.canAffordScrip pid bid = true
          · rw [if_pos h3] at hsub; cases hsub
          · rw [if_neg h3] at hsub
            by_cases h4 : ¬ auth = true
            · rw [if_pos h4] at hsub; cases hsub
            · rw [if_neg h4] at hsub
              injection hsub with hst
              subst hst
              refine ⟨hmin, ?_, ?_⟩
              · intro p
                exact Ledger.getScrip_deduct_nonneg st.2 pid bid hbal p
              · intro s hs
                rcases List.mem_append.mp hs with hm | hm
                · exact hbids s hm
                · simp only [List.mem_singleton] at hm
                  subst hm
                  simp only
                  omega
  | cancelOp pid sid =>
    simp only [scripStep]
    unfold MintAuction.cancel
    cases hf : st.1.submissions.find? (fun s => decide (s.submissionId = sid)) with
    | none => exact ⟨hmin, hbal, hbids⟩
    | some s =>
      dsimp only
      by_cases hp : s.principalId ≠ pid
      · rw [if_pos hp]
        exact ⟨hmin, hbal, hbids⟩
      · rw [if_neg hp]
        have hsbid : 0 ≤ s.bid := hbids s (List.mem_of_find?_eq_some hf)
        refine ⟨hmin, ?_, ?_⟩
        · intro p
          exact Ledger.getScrip_credit_nonneg _ _ _ hbal hsbid p
        · intro t ht
          exact hbids t (List.mem_of_mem_filter ht)
  | resolveOp score aok =>
    simp only [scripStep]
    have hminEq : ((st.1.resolve st.2 score aok).1.1).minimumBid = st.1.minimumBid := by
      unfold MintAuction.resolve
      by_cases hemp : st.1.submissions = []
      · rw [if_pos hemp]
      · rw [if_neg hemp]
    have hsubsEq : ∀ t ∈ ((st.1.resolve st.2 score aok).1.1).submissions, (0:Int) ≤ t.bid := by
      unfold MintAuction.resolve
      by_cases hemp : st.1.submissions = []
      · rw [if_pos hemp]
        intro t ht
        exact hbids t ht
      · rw [if_neg hemp]
        intro t ht
        simp at ht
    exact ⟨hminEq ▸ hmin, fun p => MintAuction.resolve_nonneg st.1 st.2 score aok hbal hbids p,
      hsubsEq⟩

theorem scripSteps_invariant (ops : List ScripOp) :
    ∀ st, ScripInvariant st → ScripInvariant (ops.foldl scripStep st) := by
  induction ops with
  | nil => intro st h; exact h
  | cons op rest ih =>
    intro st h
    exact ih _ (scripStep_preserves st op h)

/-- C1: starting from any state with non-negative balances (together with
the ambient well-formedness the kernel maintains: a non-negative configured
minimum bid and non-negative escrowed bids), every principal's scrip balance
is still a non-negative integer after any sequence of transfer, mint, and
auction submit/cancel/resolve operations. -/
theorem scrip_balance_nonneg (st : MintAuction × Ledger) (ops : List ScripOp)
    (hmin : 0 ≤ st.1.minimumBid)
    (hbal : ∀ p, 0 ≤ st.2.getScrip p)
    (hbids : ∀ s ∈ st.1.submissions, 0 ≤ s.bid) (p : String) :
    0 ≤ (ops.foldl scripStep st).2.getScrip p :=
  (scripSteps_invariant ops st ⟨hmin, hbal, hbids⟩).2.1 p

/-- Witness for C1: a transfer, an auction submission, and a resolution from
a concrete two-principal state keep `a`'s balance non-negative. -/
theorem scrip_balance_nonneg_witness :
    0 ≤ (([ScripOp.transferOp "a" "b" 3,
        ScripOp.submitOp true true "a" "art" "s1" 2,
        ScripOp.resolveOp 50 true]).foldl scripStep
        ({ minimumBid := 1, mintRatio := 10, submissions := [] },
         { scrip := [("a", 5), ("b", 0)], resources := [] })).2.getScrip "a" := by
  refine scrip_balance_nonneg _ _ (by decide) ?_ (by simp) "a"
  exact fun p => Ledger.getScrip_nonneg_of_all _ (by decide) p

-- ### Rate tracker (`world/rates.py`)

/-- One signed usage delta in a rate window (`UsageRecord`): timestamp and
amount, rationals standing for Python floats. -/
structure UsageRecord where
  timestamp : ℚ
  amount : ℚ
deriving Repr, DecidableEq

/-- `RateTracker._prune` on one `(agent, resource)` bucket: pop entries from
the front while their timestamp is strictly older than `now - window`.  The
dict plumbing `self._usage[resource][agent]` is factored out: every tracker
operation below acts on the addressed bucket, with the configured `limit` and
`window_seconds` and the current `time.time()` passed explicitly. -/
def prune (window now : ℚ) (bucket : List UsageRecord) : List UsageRecord :=
  bucket.dropWhile (fun r => decide (r.timestamp < now - window))

/-- `RateTracker.get_usage`: prune, then `max(0.0, sum(...))`. -/
def getUsage (window now : ℚ) (bucket : List UsageRecord) : ℚ :=
  max 0 (((prune window now bucket).map (·.amount)).sum)

/-- `RateTracker.get_remaining`: `max(0.0, limit - usage)`. -/
def getRemaining (limit window now : ℚ) (bucket : List UsageRecord) : ℚ :=
  max 0 (limit - getUsage window now bucket)

/-- `RateTracker.has_capacity`. -/
def hasCapacity (limit window now : ℚ) (bucket : List UsageRecord) (amount : ℚ) : Bool :=
  if amount < 0 then false
  else decide (amount ≤ getRemaining limit window now bucket)

/-- `RateTracker.consume`: reject negative amounts, accept zero amounts
without recording, otherwise admit and append iff there is capacity.  In
Python `get_usage` prunes the deque in place, so the returned bucket reflects
that mutation on the paths that checked capacity. -/
def consume (limit window now : ℚ) (bucket : List UsageRecord) (amount : ℚ) :
    List UsageRecord × Bool :=
  if amount < 0 then (bucket, false)
  else if amount = 0 then (bucket, true)
  else if ¬ hasCapacity limit window now bucket amount then (prune window now bucket, false)
  else (prune window now bucket ++ [⟨now, amount⟩], true)

/-- `RateTracker.refund`: append a negative delta; nothing is pruned. -/
def refund (now : ℚ) (bucket : List UsageRecord) (amount : ℚ) :
    List UsageRecord × Bool :=
  if amount ≤ 0 then (bucket, false)
  else (bucket ++ [⟨now, -amount⟩], true)

/-- Specification-side quantity for C5: the sum of the signed usage deltas
whose timestamps are still inside the window at time `now`. -/
def nonExpiredSum (window now : ℚ) (bucket : List UsageRecord) : ℚ :=
  ((bucket.filter (fun r => !(decide (r.timestamp < now - window)))).map (·.amount)).sum


theorem prune_eq_filter (window now : ℚ) (bucket : List UsageRecord)
    (hsorted : bucket.Pairwise (fun a b => a.timestamp ≤ b.timestamp)) :
    prune window now bucket =
      bucket.filter (fun r => !(decide (r.timestamp < now - window))) := by
  induction bucket with
  | nil => rfl
  | cons r rest ih =>
    obtain ⟨hr, hrest⟩ := List.pairwise_cons.mp hsorted
    by_cases h : r.timestamp < now - window
    · have hd : decide (r.timestamp < now - window) = true := decide_eq_true h
      simp only [prune, List.dropWhile, hd, List.filter_cons, Bool.not_true]
      rw [if_neg (by simp)]
      simpa [prune] using ih hrest
    · have hd : decide (r.timestamp < now - window) = false := decide_eq_false h
      have hall : rest.filter (fun x => !(decide (x.timestamp < now - window))) = rest := by
        apply List.filter_eq_self.mpr
        intro x hx
        have hle := hr x hx
        simp only [Bool.not_eq_true', decide_eq_false_iff_not]
        intro hc
        exact h (lt_of_le_of_lt hle hc)
      simp only [prune, List.dropWhile, hd, List.filter_cons, Bool.not_false]
      rw [if_pos (by simp), hall]

theorem prune_singleton_kept (window now t0 a : ℚ) (h : ¬ t0 < now - window) :
    prune window now [⟨t0, a⟩] = [⟨t0, a⟩] := by
  unfold prune
  simp [List.dropWhile, h]

theorem prune_singleton_dropped (window now t0 a : ℚ) (h : t0 < now - window) :
    prune window now [⟨t0, a⟩] = [] := by
  unfold prune
  simp [List.dropWhile, h]

theorem consume_empty_full (limit window t0 : ℚ) (hlim : 0 < limit) :
    consume limit window t0 [] limit = ([⟨t0, limit⟩], true) := by
  have hcap : hasCapacity limit window t0 [] limit = true := by
    unfold hasCapacity getRemaining getUsage prune
    rw [if_neg (by linarith : ¬ limit < 0)]
    apply decide_eq_true
    simp only [List.dropWhile_nil, List.map_nil, List.sum_nil, max_self, sub_zero]
    exact le_max_right 0 limit
  unfold consume
  rw [if_neg (by linarith : ¬ limit < 0), if_neg (by linarith : ¬ limit = 0),
    if_neg (by simp [hcap])]
  simp [prune]

/-- C5 counterexample (closed): the claimed admission criterion is the plain
window **sum** plus the new amount, but the code clamps usage at zero with
`max(0.0, sum(...))`.  After a standalone refund of 5 (window sum −5, limit
10, window 60), consuming 14 at time 1 satisfies the claimed criterion
(−5 + 14 = 9 ≤ 10) yet is rejected: clamped usage 0 leaves remaining
capacity 10 < 14. -/
theorem rate_consume_claim_counterexample :
    (refund 0 [] 5).1 = [⟨0, -5⟩] ∧
    nonExpiredSum 60 1 [⟨0, -5⟩] + 14 ≤ 10 ∧
    (consume 10 60 1 [⟨0, -5⟩] 14).2 = false := by
  have hsum : nonExpiredSum 60 1 [⟨0, -5⟩] = -5 := by
    unfold nonExpiredSum
    have h : ¬ ((0:ℚ) < 1 - 60) := by norm_num
    simp [h]
  refine ⟨?_, ?_, ?_⟩
  · unfold refund
    rw [if_neg (by norm_num : ¬ (5:ℚ) ≤ 0)]
    norm_num
  · rw [hsum]; norm_num
  · have hkept := prune_singleton_kept 60 1 0 (-5) (by norm_num)
    have hcap : hasCapacity 10 60 1 [⟨0, -5⟩] 14 = false := by
      unfold hasCapacity getRemaining getUsage
      rw [if_neg (by norm_num : ¬ (14:ℚ) < 0), hkept]
      apply decide_eq_false
      simp only [List.map_cons, List.map_nil, List.sum_cons, List.sum_nil, add_zero]
      rw [show max (0:ℚ) (-5) = 0 from max_eq_left (by norm_num), sub_zero,
        show max (0:ℚ) 10 = 10 from max_eq_right (by norm_num)]
      norm_num
    unfold consume
    rw [if_neg (by norm_num : ¬ (14:ℚ) < 0), if_neg (by norm_num : ¬ (14:ℚ) = 0),
      if_pos (by simp [hcap])]

/-- C5 (amended): a consumption of a **positive** amount is admitted iff
`max(0, sum of non-expired deltas) + amount ≤ limit` — the window sum clamped
at zero, matching `get_usage`'s `max(0.0, ...)`; and in particular, after
consuming the full limit from an empty window a further consumption of 1 unit
fails while the window has not elapsed, and strictly after the window elapses
with no new consumption the full limit is available again.  Buckets are
timestamp-sorted, as produced by append-only recording under monotone
time. -/
theorem rate_tracker_consume :
    (∀ (limit window now : ℚ) (bucket : List UsageRecord) (amount : ℚ),
      bucket.Pairwise (fun a b => a.timestamp ≤ b.timestamp) → 0 < amount →
      ((consume limit window now bucket amount).2 = true ↔
        max 0 (nonExpiredSum window now bucket) + amount ≤ limit)) ∧
    (∀ (limit window t0 t1 : ℚ), 0 < limit → t0 ≤ t1 → t1 - t0 < window →
      (consume limit window t0 [] limit).2 = true ∧
      (consume limit window t1 (consume limit window t0 [] limit).1 1).2 = false) ∧
    (∀ (limit window t0 t2 : ℚ), 0 < limit → window < t2 - t0 →
      getRemaining limit window t2 (consume limit window t0 [] limit).1 = limit) := by
  refine ⟨?_, ?_, ?_⟩
  · intro limit window now bucket amount hsorted hpos
    have h1 : ¬ amount < 0 := by linarith
    have h2 : ¬ amount = 0 := by linarith
    have husage : getUsage window now bucket = max 0 (nonExpiredSum window now bucket) := by
      unfold getUsage nonExpiredSum
      rw [prune_eq_filter window now bucket hsorted]
    constructor
    · intro hok
      unfold consume at hok
      rw [if_neg h1, if_neg h2] at hok
      by_cases h3 : ¬ hasCapacity limit window now bucket amount
      · rw [if_pos h3] at hok
        cases hok
      · have hcap : amount ≤ getRemaining limit window now bucket := by
          have hc := not_not.mp h3
          unfold hasCapacity at hc
          rw [if_neg h1] at hc
          exact of_decide_eq_true hc
        unfold getRemaining at hcap
        rw [husage] at hcap
        rcases le_or_lt 0 (limit - max 0 (nonExpiredSum window now bucket)) with hle | hlt
        · rw [max_eq_right hle] at hcap
          linarith
        · rw [max_eq_left hlt.le] at hcap
          linarith
    · intro hle
      unfold consume
      rw [if_neg h1, if_neg h2]
      have hcap : hasCapacity limit window now bucket amount = true := by
        unfold hasCapacity
        rw [if_neg h1]
        apply decide_eq_true
        unfold getRemaining
        rw [husage]
        have hmax : 0 ≤ max 0 (nonExpiredSum window now bucket) := le_max_left 0 _
        exact le_max_of_le_right (by linarith)
      rw [if_neg (by simp [hcap])]
  · intro limit window t0 t1 hlim h01 hwin
    have hfull := consume_empty_full limit window t0 hlim
    refine ⟨by rw [hfull], ?_⟩
    rw [hfull]
    have hkept := prune_singleton_kept window t1 t0 limit (by linarith)
    have hcap : hasCapacity limit window t1 [⟨t0, limit⟩] 1 = false := by
      unfold hasCapacity getRemaining getUsage
      rw [if_neg (by norm_num : ¬ (1:ℚ) < 0), hkept]
      apply decide_eq_false
      simp only [List.map_cons, List.map_nil, List.sum_cons, List.sum_nil, add_zero]
      rw [max_eq_right hlim.le, sub_self, max_self]
      norm_num
    show (consume limit window t1 [⟨t0, limit⟩] 1).2 = false
    unfold consume
    rw [if_neg (by norm_num : ¬ (1:ℚ) < 0), if_neg (by norm_num : ¬ (1:ℚ) = 0),
      if_pos (by simp [hcap])]
  · intro limit window t0 t2 hlim hwin
    rw [consume_empty_full limit window t0 hlim]
    show getRemaining limit window t2 [⟨t0, limit⟩] = limit
    unfold getRemaining getUsage
    rw [prune_singleton_dropped window t2 t0 limit (by linarith)]
    simp only [List.map_nil, List.sum_nil, max_self, sub_zero]
    exact max_eq_right hlim.le

/-- Witness for `rate_tracker_consume` at concrete inputs: limit 10,
window 60: an empty window admits 7; filling the limit at t=0 makes a further
unit fail at t=30; at t=61 the full limit is available again. -/
theorem rate_tracker_consume_witness :
    (consume 10 60 5 [] 7).2 = true ∧
    (consume 10 60 30 (consume 10 60 0 [] 10).1 1).2 = false ∧
    getRemaining 10 60 61 (consume 10 60 0 [] 10).1 = 10 := by
  refine ⟨?_, (rate_tracker_consume.2.1 10 60 0 30 (by norm_num) (by norm_num)
      (by norm_num)).2, rate_tracker_consume.2.2 10 60 0 61 (by norm_num) (by norm_num)⟩
  apply (rate_tracker_consume.1 10 60 5 [] 7 (by simp) (by norm_num)).mpr
  rw [show nonExpiredSum 60 5 [] = 0 from rfl, max_self]
  norm_num

-- ### Artifact store edit (`world/artifacts.py`)

/-- Helper for `pyCount` on a non-empty pattern: Python `str.count`'s
left-to-right non-overlapping scan — at each position, a match advances past
the whole pattern, a non-match advances one character. -/
def countAux : List Char → List Char → Nat
  | [], _ => 0
  | _ :: _, [] => 0
  | c :: rest, p :: ps =>
    if (p :: ps).isPrefixOf (c :: rest) then
      1 + countAux (rest.drop ps.length) (p :: ps)
    else countAux rest (p :: ps)
termination_by s _ => s.length
decreasing_by
  · simp only [List.length_cons, List.length_drop]
    omega
  · simp only [List.length_cons]
    omega

/-- Python `s.count(pat)`: non-overlapping occurrences; an empty pattern
counts `len(s) + 1`. -/
def pyCount (s pat : List Char) : Nat :=
  if pat = [] then s.length + 1 else countAux s pat

/-- Helper for `pyReplaceFirst` on a non-empty pattern: replace the leftmost
match. -/
def replaceAux : List Char → List Char → List Char → List Char
  | [], _, _ => []
  | c :: rest, old, new =>
    if old.isPrefixOf (c :: rest) then new ++ (c :: rest).drop old.length
    else c :: replaceAux rest old new

/-- Python `s.replace(old, new, 1)`: replace the first occurrence; with an
empty `old` the replacement is inserted in front. -/
def pyReplaceFirst (s old new : List Char) : List Char :=
  if old = [] then new ++ s else replaceAux s old new

/-- The artifact fields `edit_artifact` touches (`Artifact` in
`world/artifacts.py` also carries ownership, pricing, and flag fields that
the edit path neither reads nor writes). -/
structure Artifact where
  content : List Char
  deleted : Bool
deriving Repr, DecidableEq

/-- `WriteResult`: success flag, message, and the `data["error"]` code. -/
structure WriteResult where
  success : Bool
  message : String
  errCode : Option String
deriving Repr, DecidableEq

/-- `ArtifactStore.edit_artifact`: single-occurrence substring replacement
with a distinct error code per failure case, leaving the store unchanged on
failure. -/
def editArtifact (store : List (String × Artifact)) (aid : String)
    (oldS newS : List Char) : List (String × Artifact) × WriteResult :=
  match alGet store aid with
  | none => (store, ⟨false, "artifact not found", some "not_found"⟩)
  | some a =>
    if a.deleted then (store, ⟨false, "artifact is deleted", some "deleted"⟩)
    else
      let hits := pyCount a.content oldS
      if hits = 0 then
        (store, ⟨false, "old_string not found in artifact content", some "not_found_in_content"⟩)
      else if 1 < hits then
        (store, ⟨false, "old_string is not unique in artifact content", some "not_unique"⟩)
      else
        let updated := pyReplaceFirst a.content oldS newS
        if updated = a.content then
          (store, ⟨false, "edit produced no change", some "no_change"⟩)
        else
          (alSet store aid { a with content := updated }, ⟨true, "artifact updated", none⟩)

theorem replaceAux_decomp (old : List Char) (hold : old ≠ []) :
    ∀ (c new : List Char), 1 ≤ countAux c old →
      ∃ p s, c = p ++ old ++ s ∧ replaceAux c old new = p ++ new ++ s := by
  obtain ⟨p0, ps, rfl⟩ := List.exists_cons_of_ne_nil hold
  intro c
  induction c with
  | nil => intro new h; simp [countAux] at h
  | cons ch rest ih =>
    intro new h
    by_cases hpre : (p0 :: ps).isPrefixOf (ch :: rest) = true
    · obtain ⟨t, ht⟩ := List.isPrefixOf_iff_prefix.mp hpre
      refine ⟨[], t, by simp [← ht], ?_⟩
      unfold replaceAux
      rw [if_pos hpre, ← ht, List.drop_left]
      simp
    · have hc : 1 ≤ countAux rest (p0 :: ps) := by
        unfold countAux at h
        rw [if_neg hpre] at h
        exact h
      obtain ⟨p, s, hcs, hrs⟩ := ih new hc
      refine ⟨ch :: p, s, by simp [hcs], ?_⟩
      unfold replaceAux
      rw [if_neg hpre, hrs]
      simp

theorem pyReplaceFirst_decomp (c old new : List Char) (h : 1 ≤ pyCount c old) :
    ∃ p s, c = p ++ old ++ s ∧ pyReplaceFirst c old new = p ++ new ++ s := by
  by_cases hold : old = []
  · subst hold
    exact ⟨[], c, by simp, by simp [pyReplaceFirst]⟩
  · have h' : 1 ≤ countAux c old := by
      unfold pyCount at h
      rwa [if_neg hold] at h
    obtain ⟨p, s, h1, h2⟩ := replaceAux_decomp old hold c new h'
    refine ⟨p, s, h1, ?_⟩
    unfold pyReplaceFirst
    rwa [if_neg hold]

/-- C6: on an existing, non-deleted artifact, `edit` is a complete case
split on the occurrence count of the target substring (Python `str.count`,
non-overlapping): zero occurrences, more than one occurrence, and a no-op
replacement each fail with their own distinct error code and leave the store
unchanged; with exactly one occurrence and an effective replacement it
succeeds and replaces exactly that one occurrence (the content decomposes as
`p ++ old ++ s` before and `p ++ new ++ s` after). -/
theorem edit_artifact_cases (store : List (String × Artifact)) (aid : String)
    (a : Artifact) (hget : alGet store aid = some a) (hdel : a.deleted = false)
    (oldS newS : List Char) :
    (pyCount a.content oldS = 0 →
      (editArtifact store aid oldS newS).2.errCode = some "not_found_in_content" ∧
      (editArtifact store aid oldS newS).2.success = false ∧
      (editArtifact store aid oldS newS).1 = store) ∧
    (1 < pyCount a.content oldS →
      (editArtifact store aid oldS newS).2.errCode = some "not_unique" ∧
      (editArtifact store aid oldS newS).2.success = false ∧
      (editArtifact store aid oldS newS).1 = store) ∧
    (pyCount a.content oldS = 1 → pyReplaceFirst a.content oldS newS = a.content →
      (editArtifact store aid oldS newS).2.errCode = some "no_change" ∧
      (editArtifact store aid oldS newS).2.success = false ∧
      (editArtifact store aid oldS newS).1 = store) ∧
    (pyCount a.content oldS = 1 → pyReplaceFirst a.content oldS newS ≠ a.content →
      (editArtifact store aid oldS newS).2.success = true ∧
      alGet (editArtifact store aid oldS newS).1 aid =
        some { a with content := pyReplaceFirst a.content oldS newS } ∧
      ∃ p s, a.content = p ++ oldS ++ s ∧
        pyReplaceFirst a.content oldS newS = p ++ newS ++ s) ∧
    ((some "not_found_in_content" : Option String) ≠ some "not_unique" ∧
      (some "not_unique" : Option String) ≠ some "no_change" ∧
      (some "not_found_in_content" : Option String) ≠ some "no_change") := by
  have hbase : editArtifact store aid oldS newS =
      (if pyCount a.content oldS = 0 then
        (store, ⟨false, "old_string not found in artifact content", some "not_found_in_content"⟩)
      else if 1 < pyCount a.content oldS then
        (store, ⟨false, "old_string is not unique in artifact content", some "not_unique"⟩)
      else if pyReplaceFirst a.content oldS newS = a.content then
        (store, ⟨false, "edit produced no change", some "no_change"⟩)
      else
        (alSet store aid { a with content := pyReplaceFirst a.content oldS newS },
          ⟨true, "artifact updated", none⟩)) := by
    unfold editArtifact
    rw [hget]
    simp only [hdel, Bool.false_eq_true, if_false]
  refine ⟨?_, ?_, ?_, ?_, by decide⟩
  · intro h0
    rw [hbase, if_pos h0]
    exact ⟨rfl, rfl, rfl⟩
  · intro h2
    rw [hbase, if_neg (by omega), if_pos h2]
    exact ⟨rfl, rfl, rfl⟩
  · intro h1 hnc
    rw [hbase, if_neg (by omega), if_neg (by omega), if_pos hnc]
    exact ⟨rfl, rfl, rfl⟩
  · intro h1 hnc
    rw [hbase, if_neg (by omega), if_neg (by omega), if_neg hnc]
    refine ⟨rfl, ?_, pyReplaceFirst_decomp a.content oldS newS (by omega)⟩
    exact alGet_alSet_self store aid _

/-- Witness for `edit_artifact_cases` on content `"hello world"`: editing the
unique occurrence of `"world"` to `"there"` succeeds and yields
`"hello there"`. -/
theorem edit_artifact_cases_witness :
    (editArtifact [("doc", ⟨"hello world".data, false⟩)] "doc"
      "world".data "there".data).2.success = true ∧
    alGet (editArtifact [("doc", ⟨"hello world".data, false⟩)] "doc"
      "world".data "there".data).1 "doc" =
      some ⟨"hello there".data, false⟩ := by
  have h := (edit_artifact_cases [("doc", ⟨"hello world".data, false⟩)] "doc"
    ⟨"hello world".data, false⟩ (by decide) rfl "world".data "there".data).2.2.2.1
    (by simp [pyCount, countAux, List.isPrefixOf]) (by decide)
  exact ⟨h.1, by rw [h.2.1]; decide⟩

-- ### Key-set and balance bookkeeping lemmas for the auction resolution

theorem alGet_eq_none_iff {α : Type} (l : List (String × α)) (k : String) :
    alGet l k = none ↔ k ∉ l.map Prod.fst := by
  induction l with
  | nil => simp [alGet]
  | cons kv rest ih =>
    by_cases h : kv.1 = k
    · simp [alGet, List.find?, h]
    · have hd : decide (kv.1 = k) = false := decide_eq_false h
      simp only [alGet, List.find?, hd, List.map_cons, List.mem_cons, not_or]
      unfold alGet at ih
      rw [ih]
      constructor
      · intro hx
        exact ⟨fun hh => h hh.symm, hx⟩
      · intro hx
        exact hx.2

theorem map_fst_alSet_mem {α : Type} (l : List (String × α)) (k : String) (v : α)
    (h : k ∈ l.map Prod.fst) : (alSet l k v).map Prod.fst = l.map Prod.fst := by
  induction l with
  | nil => simp at h
  | cons kv rest ih =>
    by_cases hk : kv.1 = k
    · simp [alSet, hk]
    · simp only [List.map_cons, List.mem_cons] at h
      rcases h with h | h
      · exact absurd h.symm hk
      · simp [alSet, hk, ih h]

theorem map_fst_alSet_not_mem {α : Type} (l : List (String × α)) (k : String) (v : α)
    (h : k ∉ l.map Prod.fst) : (alSet l k v).map Prod.fst = l.map Prod.fst ++ [k] := by
  induction l with
  | nil => simp [alSet]
  | cons kv rest ih =>
    simp only [List.map_cons, List.mem_cons, not_or] at h
    obtain ⟨h1, h2⟩ := h
    have hne : ¬ kv.1 = k := fun hh => h1 hh.symm
    simp only [alSet, hne, if_false, List.map_cons, List.cons_append, List.cons.injEq, true_and]
    exact ih h2

theorem Ledger.nodupKeys_credit (L : Ledger) (pid : String) (a : Int)
    (h : (L.scrip.map Prod.fst).Nodup) :
    (((L.creditScrip pid a).scrip.map Prod.fst)).Nodup := by
  unfold Ledger.creditScrip Ledger.ensurePrincipal
  cases hg : alGet L.scrip pid with
  | some v =>
    have hmem : pid ∈ L.scrip.map Prod.fst := by
      by_contra hc
      rw [(alGet_eq_none_iff L.scrip pid).mpr hc] at hg
      cases hg
    simp only
    rw [map_fst_alSet_mem _ _ _ hmem]
    exact h
  | none =>
    have hnm : pid ∉ L.scrip.map Prod.fst := (alGet_eq_none_iff L.scrip pid).mp hg
    simp only
    have hmem2 : pid ∈ (L.scrip ++ [(pid, 0)]).map Prod.fst := by simp
    rw [map_fst_alSet_mem _ _ _ hmem2]
    simp only [List.map_append, List.map_cons, List.map_nil]
    rw [List.nodup_append]
    refine ⟨h, List.nodup_singleton pid, ?_⟩
    intro x hx hx2
    simp only [List.mem_singleton] at hx2
    subst hx2
    exact hnm hx

theorem Ledger.nodupKeys_creditFold (losers : List MintSubmission) :
    ∀ (L : Ledger), (L.scrip.map Prod.fst).Nodup →
      (((losers.foldl (fun acc s => acc.creditScrip s.principalId s.bid) L).scrip.map
        Prod.fst)).Nodup := by
  induction losers with
  | nil => intro L h; exact h
  | cons s rest ih =>
    intro L h
    simp only [List.foldl_cons]
    exact ih _ (Ledger.nodupKeys_credit L s.principalId s.bid h)

theorem creditFold_getScrip_not_mem (losers : List MintSubmission) :
    ∀ (L : Ledger) (q : String), q ∉ losers.map MintSubmission.principalId →
      (losers.foldl (fun acc s => acc.creditScrip s.principalId s.bid) L).getScrip q =
        L.getScrip q := by
  induction losers with
  | nil => intro L q _; rfl
  | cons s rest ih =>
    intro L q hq
    simp only [List.map_cons, List.mem_cons, not_or] at hq
    simp only [List.foldl_cons]
    rw [ih _ q hq.2, Ledger.getScrip_credit_ne _ _ _ _ hq.1]

theorem creditFold_getScrip_mem (losers : List MintSubmission)
    (hnd : (losers.map MintSubmission.principalId).Nodup) :
    ∀ (L : Ledger) (t : MintSubmission), t ∈ losers →
      (losers.foldl (fun acc s => acc.creditScrip s.principalId s.bid) L).getScrip
        t.principalId = L.getScrip t.principalId + t.bid := by
  induction losers with
  | nil => intro L t ht; cases ht
  | cons s rest ih =>
    intro L t ht
    obtain ⟨hs, hrest⟩ := List.nodup_cons.mp hnd
    simp only [List.foldl_cons]
    rcases List.mem_cons.mp ht with h | h
    · subst h
      rw [creditFold_getScrip_not_mem rest _ _ hs, Ledger.getScrip_credit_self]
    · have hne : t.principalId ≠ s.principalId := by
        intro hc
        apply hs
        rw [← hc]
        exact List.mem_map_of_mem MintSubmission.principalId h
      rw [ih hrest _ t h, Ledger.getScrip_credit_ne _ _ _ _ hne]

theorem Ledger.ubiLoop_getScrip_eq_payout (entries : List (Nat × String)) (per rem : Int) :
    ∀ (L : Ledger) (q : String), (entries.map Prod.snd).Nodup →
      (Ledger.ubiLoop L entries per rem).1.getScrip q =
        L.getScrip q + (alGet (Ledger.ubiLoop L entries per rem).2 q).getD 0 := by
  induction entries with
  | nil => intro L q _; simp [Ledger.ubiLoop, alGet]
  | cons e rest ih =>
    intro L q hnd
    obtain ⟨idx, pid⟩ := e
    simp only [List.map_cons] at hnd
    obtain ⟨hpid, hrest⟩ := List.nodup_cons.mp hnd
    unfold Ledger.ubiLoop
    by_cases hs : 0 < per + (if (idx : Int) < rem then 1 else 0)
    · simp only [hs, if_true]
      by_cases hq : q = pid
      · subst hq
        have hnm : q ∉ rest.map Prod.snd := hpid
        rw [Ledger.ubiLoop_getScrip_not_mem rest per rem q _ hnm,
          Ledger.getScrip_credit_self]
        simp [alGet, List.find?]
      · rw [ih _ q hrest, Ledger.getScrip_credit_ne _ _ _ _ hq]
        have halg : alGet ((pid, per + (if (idx : Int) < rem then 1 else 0)) ::
            (Ledger.ubiLoop (L.creditScrip pid
              (per + (if (idx : Int) < rem then 1 else 0))) rest per rem).2) q =
            alGet ((Ledger.ubiLoop (L.creditScrip pid
              (per + (if (idx : Int) < rem then 1 else 0))) rest per rem).2) q := by
          have hd : decide (pid = q) = false := decide_eq_false (fun hh => hq hh.symm)
          simp [alGet, List.find?, hd]
        rw [halg]
    · simp only [hs, if_false]
      exact ih L q hrest

theorem Ledger.distributeUbi_getScrip (L : Ledger) (amount : Int) (exclude : Option String)
    (q : String) (hnd : (L.scrip.map Prod.fst).Nodup) :
    (L.distributeUbi amount exclude).1.getScrip q =
      L.getScrip q + (alGet (L.distributeUbi amount exclude).2 q).getD 0 := by
  unfold Ledger.distributeUbi
  by_cases hc : amount ≤ 0 ∨ L.ubiRecipients exclude = []
  · simp [hc, alGet]
  · simp only [hc, if_false]
    have hndr : ((L.ubiRecipients exclude).enum.map Prod.snd).Nodup := by
      have henum : (L.ubiRecipients exclude).enum.map Prod.snd = L.ubiRecipients exclude :=
        map_snd_enumFrom (L.ubiRecipients exclude) 0
      rw [henum]
      unfold Ledger.ubiRecipients
      cases exclude with
      | none => exact hnd.filter _
      | some e => exact (hnd.filter _).filter _
    exact Ledger.ubiLoop_getScrip_eq_payout _ _ _ L q hndr

theorem mem_ubiRecipients_ne_exclude (L : Ledger) (e pid : String)
    (h : pid ∈ L.ubiRecipients (some e)) : pid ≠ e := by
  unfold Ledger.ubiRecipients at h
  simp only at h
  have := (List.mem_filter.mp h).2
  simpa using this

theorem Ledger.distributeUbi_excluded (L : Ledger) (amount : Int) (e : String) :
    (L.distributeUbi amount (some e)).1.getScrip e = L.getScrip e ∧
    alGet (L.distributeUbi amount (some e)).2 e = none := by
  unfold Ledger.distributeUbi
  by_cases hc : amount ≤ 0 ∨ L.ubiRecipients (some e) = []
  · simp [hc, alGet]
  · simp only [hc, if_false]
    have hmem : e ∉ (L.ubiRecipients (some e)).enum.map Prod.snd := by
      rw [show (L.ubiRecipients (some e)).enum.map Prod.snd = L.ubiRecipients (some e) from
        map_snd_enumFrom (L.ubiRecipients (some e)) 0]
      intro hmem
      exact mem_ubiRecipients_ne_exclude L e e hmem rfl
    exact ⟨Ledger.ubiLoop_getScrip_not_mem _ _ _ _ _ hmem,
      Ledger.ubiLoop_payout_not_mem _ _ _ _ _ hmem⟩

-- ### C3: second-price auction resolution

/-- C3: for every non-empty submission pool (with pairwise-distinct bidders,
each bid at or above the configured minimum, `mint_ratio ≥ 1`, and the
scorer's clamped non-negative score), `resolve` makes the highest bidder the
winner (the head of the stable descending sort; its bid is maximal), reports
the second-highest bid — or the configured minimum bid for a single
submission — as the clearing price, mints `score // mint_ratio` to the
winner, fully refunds every non-winner's escrowed bid (their final balance is
the initial one plus their bid plus their UBI share), and refunds the winner
the difference between its bid and the clearing price (its final balance is
the initial one plus `bid - price` plus the minted scrip; it is excluded from
UBI). -/
theorem mint_resolve_second_price (A : MintAuction) (L : Ledger) (score : Int)
    (hne : A.submissions ≠ [])
    (hnd : (A.submissions.map MintSubmission.principalId).Nodup)
    (hndL : (L.scrip.map Prod.fst).Nodup)
    (hbids : ∀ t ∈ A.submissions, A.minimumBid ≤ t.bid)
    (hratio : 1 ≤ A.mintRatio) (hscore : 0 ≤ score) :
    let res := (A.resolve L score true).2
    let final := (A.resolve L score true).1.2
    let sorted := sortByBidDesc A.submissions
    let w := sorted.headI
    let price : Int := match sorted.tail with | [] => A.minimumBid | s2 :: _ => s2.bid
    res.winnerId = some w.principalId ∧
    (∀ t ∈ A.submissions, t.bid ≤ w.bid) ∧
    res.pricePaid = price ∧
    res.scripMinted = score / A.mintRatio ∧
    (∀ t ∈ A.submissions, t.principalId ≠ w.principalId →
      final.getScrip t.principalId =
        L.getScrip t.principalId + t.bid +
          (alGet res.ubiDistributed t.principalId).getD 0) ∧
    final.getScrip w.principalId =
      L.getScrip w.principalId + (w.bid - price) + score / A.mintRatio := by
  obtain ⟨w, rest, hs⟩ : ∃ w rest, sortByBidDesc A.submissions = w :: rest := by
    cases hsort : sortByBidDesc A.submissions with
    | nil =>
      exfalso
      have hp := sortByBidDesc_perm A.submissions
      rw [hsort] at hp
      exact hne hp.symm.eq_nil
    | cons w rest => exact ⟨w, rest, rfl⟩
  have hperm := sortByBidDesc_perm A.submissions
  rw [hs] at hperm
  have hpw := sortByBidDesc_pairwise A.submissions
  rw [hs] at hpw
  obtain ⟨hwmax, hpwrest⟩ := List.pairwise_cons.mp hpw
  have hndsort : (w.principalId :: rest.map MintSubmission.principalId).Nodup := by
    have := (hperm.map MintSubmission.principalId).nodup_iff.mpr hnd
    simpa using this
  obtain ⟨hwnotin, hndrest⟩ := List.nodup_cons.mp hndsort
  have hwmem : w ∈ A.submissions := hperm.subset (List.mem_cons_self w rest)
  have hmax : ∀ t ∈ A.submissions, t.bid ≤ w.bid := by
    intro t ht
    rcases List.mem_cons.mp (hperm.symm.subset ht) with h | h
    · subst h; exact le_refl _
    · exact hwmax t h
  have hL1nd : (((rest.foldl (fun acc s => acc.creditScrip s.principalId s.bid) L).scrip.map
      Prod.fst)).Nodup := Ledger.nodupKeys_creditFold rest L hndL
  -- price and its relation to the winner's bid
  have hwp : A.minimumBid ≤ w.bid := hbids w hwmem
  have hprice_le : (match rest with | [] => A.minimumBid | s2 :: _ => s2.bid) ≤ w.bid := by
    cases rest with
    | nil => exact hwp
    | cons s2 r2 => exact hwmax s2 (List.mem_cons_self s2 r2)
  have hminted_nonneg : 0 ≤ score / A.mintRatio := Int.ediv_nonneg hscore (by omega)
  -- unfold the resolution
  unfold MintAuction.resolve
  rw [if_neg hne]
  dsimp only
  rw [hs]
  simp only [List.headI, List.tail]
  rw [show (max 1 A.mintRatio) = A.mintRatio from max_eq_right hratio]
  simp only [if_true]
  refine ⟨by trivial, hmax, by trivial, by trivial, ?_, ?_⟩
  · -- losers: refund + UBI share
    intro t ht htw
    have htrest : t ∈ rest := by
      rcases List.mem_cons.mp (hperm.symm.subset ht) with h | h
      · exact absurd (congrArg MintSubmission.principalId h) htw
      · exact h
    generalize (match rest with | [] => A.minimumBid | s2 :: _ => s2.bid : Int) = price
    set L1 := rest.foldl (fun acc s => acc.creditScrip s.principalId s.bid) L with hL1
    set refund := w.bid - price with hrf
    set L2 := if 0 < refund then L1.creditScrip w.principalId refund else L1 with hL2
    set minted := score / A.mintRatio with hmtd
    set L3 := if 0 < minted then L2.creditScrip w.principalId minted else L2 with hL3
    have htne : t.principalId ≠ w.principalId := htw
    have h1 : L1.getScrip t.principalId = L.getScrip t.principalId + t.bid :=
      creditFold_getScrip_mem rest hndrest L t htrest
    have h2 : L2.getScrip t.principalId = L1.getScrip t.principalId := by
      rw [hL2]
      by_cases hr : 0 < refund
      · rw [if_pos hr, Ledger.getScrip_credit_ne _ _ _ _ htne]
      · rw [if_neg hr]
    have hL2nd : (L2.scrip.map Prod.fst).Nodup := by
      rw [hL2]
      by_cases hr : 0 < refund
      · rw [if_pos hr]
        exact Ledger.nodupKeys_credit _ _ _ hL1nd
      · rw [if_neg hr]
        exact hL1nd
    have h3 : L3.getScrip t.principalId = L2.getScrip t.principalId := by
      rw [hL3]
      by_cases hm : 0 < minted
      · rw [if_pos hm, Ledger.getScrip_credit_ne _ _ _ _ htne]
      · rw [if_neg hm]
    have hL3nd : (L3.scrip.map Prod.fst).Nodup := by
      rw [hL3]
      by_cases hm : 0 < minted
      · rw [if_pos hm]
        exact Ledger.nodupKeys_credit _ _ _ hL2nd
      · rw [if_neg hm]
        exact hL2nd
    have h4 := Ledger.distributeUbi_getScrip L3 price (some w.principalId)
      t.principalId hL3nd
    rw [h4, h3, h2, h1]
  · -- winner: refund of the overbid plus the minted scrip, excluded from UBI
    generalize hpr : (match rest with | [] => A.minimumBid | s2 :: _ => s2.bid : Int) = price
    rw [hpr] at hprice_le
    set L1 := rest.foldl (fun acc s => acc.creditScrip s.principalId s.bid) L with hL1
    set refund := w.bid - price with hrf
    set L2 := if 0 < refund then L1.creditScrip w.principalId refund else L1 with hL2
    set minted := score / A.mintRatio with hmtd
    set L3 := if 0 < minted then L2.creditScrip w.principalId minted else L2 with hL3
    have h1 : L1.getScrip w.principalId = L.getScrip w.principalId :=
      creditFold_getScrip_not_mem rest L w.principalId hwnotin
    have h2 : L2.getScrip w.principalId = L1.getScrip w.principalId + refund := by
      rw [hL2]
      by_cases hr : 0 < refund
      · rw [if_pos hr, Ledger.getScrip_credit_self]
      · rw [if_neg hr]
        have : refund = 0 := by rw [hrf]; omega
        omega
    have h3 : L3.getScrip w.principalId = L2.getScrip w.principalId + minted := by
      rw [hL3]
      by_cases hm : 0 < minted
      · rw [if_pos hm, Ledger.getScrip_credit_self]
      · rw [if_neg hm]
        have : minted = 0 := by rw [hmtd]; omega
        omega
    have h4 := (Ledger.distributeUbi_excluded L3 price w.principalId).1
    rw [h4, h3, h2, h1, hrf, hmtd]

/-- Concrete auction for the C3 witness: bids A:10 and B:6, `minimum_bid` 1,
`mint_ratio` 10 (the spec's worked example), with a third principal `C` so
the UBI pool is non-trivial. -/
def mintAuctionC3 : MintAuction :=
  { minimumBid := 1, mintRatio := 10,
    submissions := [⟨"s1", "A", "art1", 10⟩, ⟨"s2", "B", "art2", 6⟩] }

/-- Ledger for the C3 witness (escrow already deducted at submit time). -/
def ledgerC3 : Ledger := { scrip := [("A", 0), ("B", 0), ("C", 0)], resources := [] }

/-- Witness for `mint_resolve_second_price` on the spec's example: winner `A`
pays 6 (so is refunded 4 of its 10), is minted 50 // 10 = 5, `B` is refunded
its full 6 plus a UBI share of 3, and the UBI distribution of the clearing
price sums to exactly 6. -/
theorem mint_resolve_second_price_witness :
    (mintAuctionC3.resolve ledgerC3 50 true).2.winnerId = some "A" ∧
    (mintAuctionC3.resolve ledgerC3 50 true).2.pricePaid = 6 ∧
    (mintAuctionC3.resolve ledgerC3 50 true).2.scripMinted = 5 ∧
    (mintAuctionC3.resolve ledgerC3 50 true).1.2.getScrip "A" = 9 ∧
    (mintAuctionC3.resolve ledgerC3 50 true).1.2.getScrip "B" = 9 ∧
    ((mintAuctionC3.resolve ledgerC3 50 true).2.ubiDistributed.map Prod.snd).sum = 6 := by
  have h := mint_resolve_second_price mintAuctionC3 ledgerC3 50 (by decide) (by decide)
    (by decide) (by decide) (by decide) (by decide)
  dsimp only at h
  obtain ⟨ha, _hmax, hc, hd, he, hf⟩ := h
  refine ⟨ha.trans (by decide), hc.trans (by decide), hd.trans (by decide), ?_, ?_, by decide⟩
  · rw [show (sortByBidDesc mintAuctionC3.submissions).headI.principalId = "A" from by decide]
      at hf
    exact hf.trans (by decide)
  · have hb := he ⟨"s2", "B", "art2", 6⟩ (by decide) (by decide)
    exact hb.trans (by decide)

-- ### Resource pools and the AI-call syscall (`world/world.py`)

/-- `Ledger.set_resource`: ensure the principal, then
`self.resources[pid][resource] = amount`. -/
def Ledger.setResource (L : Ledger) (pid res : String) (a : ℚ) : Ledger :=
  let L1 := L.ensurePrincipal pid
  let updated := alSet ((alGet L1.resources pid).getD []) res a
  { L1 with resources := alSet L1.resources pid updated }

/-- `Ledger.get_resource`: `self.resources.get(pid, {}).get(resource, 0.0)`. -/
def Ledger.getResource (L : Ledger) (pid res : String) : ℚ :=
  (alGet ((alGet L.resources pid).getD []) res).getD 0

/-- `Ledger.credit_resource`. -/
def Ledger.creditResource (L : Ledger) (pid res : String) (a : ℚ) : Ledger :=
  L.setResource pid res (L.getResource pid res + a)

/-- `Ledger.can_spend_resource`. -/
def Ledger.canSpendResource (L : Ledger) (pid res : String) (a : ℚ) : Bool :=
  decide (a ≤ L.getResource pid res)

/-- `Ledger.spend_resource`.  Like `deduct_scrip`, the Python body indexes
`self.resources[pid]` directly; on the success path with a positive amount
the principal's pool is always present, which `setResource`'s ensure
mirrors. -/
def Ledger.spendResource (L : Ledger) (pid res : String) (a : ℚ) : Ledger × Bool :=
  if a < 0 then (L, false)
  else if ¬ L.canSpendResource pid res a then (L, false)
  else (L.setResource pid res (L.getResource pid res - a), true)

/-- `Ledger.get_llm_budget`. -/
def Ledger.getLlmBudget (L : Ledger) (pid : String) : ℚ :=
  L.getResource pid "llm_budget"

/-- `Ledger.can_afford_llm_call`. -/
def Ledger.canAffordLlmCall (L : Ledger) (pid : String) (estimatedCost : ℚ) : Bool :=
  decide (estimatedCost ≤ L.getLlmBudget pid)

/-- `World._estimate_tokens`: `max(20, rough_chars // 4)` where `rough_chars`
sums `len(str(content))` over the messages (modelled as the list of those
stringified contents). -/
def estimateTokens (messages : List String) : Nat :=
  max 20 ((messages.map String.length).sum / 4)

/-- The syscall's preflight cost estimate:
`max(0.0002, estimated_tokens / 1000.0 * 0.003)`. -/
def estimatedCostOf (estTokens : Nat) : ℚ :=
  max (2 / 10000) ((estTokens : ℚ) / 1000 * (3 / 1000))

/-- What the external completion provider returned on success, after the
kernel's `int(...)`/`float(...)` coercions of the usage dict: token counts,
the cache-hit flag, and the measured marginal cost. -/
structure LlmSuccess where
  promptTokens : Int
  completionTokens : Int
  actualTokens : Int
  cacheHit : Bool
  actualCost : ℚ
deriving Repr, DecidableEq

/-- The kernel state the AI-call syscall touches: the ledger's resource pools
plus the payer's `llm_calls` and `llm_tokens` rate-window buckets. -/
structure SysState where
  ledger : Ledger
  callsBucket : List UsageRecord
  tokensBucket : List UsageRecord
deriving Repr, DecidableEq

/-- The syscall's observable verdict: success flag and `error_code`. -/
structure SysResult where
  success : Bool
  errorCode : Option String
deriving Repr, DecidableEq

/-- `World.call_llm_as_syscall`.  External collaborators are parameters: the
`allowed_models` check result (`modelAllowed`), and the provider call's
outcome (`.error` for any raised exception, `.ok` for a response).  The
configured rate limits, shared window length, and the current time are passed
explicitly; all reservations and refunds of one call carry the same
timestamp. -/
def callLlmSyscall (st : SysState) (payer : String) (modelAllowed : Bool)
    (messages : List String) (callsLimit tokensLimit window now : ℚ)
    (outcome : Except String LlmSuccess) : SysState × SysResult :=
  if ¬ modelAllowed then (st, ⟨false, some "model_not_allowed"⟩)
  else
    let estTokens := estimateTokens messages
    let estCost := estimatedCostOf estTokens
    if ¬ st.ledger.canAffordLlmCall payer estCost then
      (st, ⟨false, some "insufficient_budget"⟩)
    else
      match st.ledger.spendResource payer "llm_budget" estCost with
      | (L1, false) => ({ st with ledger := L1 }, ⟨false, some "insufficient_budget"⟩)
      | (L1, true) =>
        match consume callsLimit window now st.callsBucket 1 with
        | (cb1, false) =>
          ({ ledger := L1.creditResource payer "llm_budget" estCost,
             callsBucket := cb1, tokensBucket := st.tokensBucket },
           ⟨false, some "rate_limited"⟩)
        | (cb1, true) =>
          match consume tokensLimit window now st.tokensBucket (estTokens : ℚ) with
          | (tb1, false) =>
            ({ ledger := L1.creditResource payer "llm_budget" estCost,
               callsBucket := (refund now cb1 1).1, tokensBucket := tb1 },
             ⟨false, some "rate_limited"⟩)
          | (tb1, true) =>
            match outcome with
            | .error _ =>
              -- provider failure: undo all three reservations
              ({ ledger := L1.creditResource payer "llm_budget" estCost,
                 callsBucket := (refund now cb1 1).1,
                 tokensBucket := (refund now tb1 (estTokens : ℚ)).1 },
               ⟨false, some "llm_error"⟩)
            | .ok r =>
              let actualTokens : Int := if r.cacheHit then 0 else r.actualTokens
              let actualCost : ℚ := if r.cacheHit then 0 else r.actualCost
              let cb2 := if r.cacheHit then (refund now cb1 1).1 else cb1
              let tb2 :=
                if actualTokens < (estTokens : Int) then
                  (refund now tb1 ((estTokens : ℚ) - (actualTokens : ℚ))).1
                else if (estTokens : Int) < actualTokens then
                  -- overage: best-effort extra consume, logged on failure
                  (consume tokensLimit window now tb1
                    ((actualTokens : ℚ) - (estTokens : ℚ))).1
                else tb1
              let L2 :=
                if actualCost ≤ estCost then
                  (if 0 < estCost - actualCost then
                    L1.creditResource payer "llm_budget" (estCost - actualCost)
                  else L1)
                else
                  (let chargeExtra := min (actualCost - estCost) (max 0 (L1.getLlmBudget payer))
                   if 0 < chargeExtra then
                    (L1.spendResource payer "llm_budget" chargeExtra).1
                   else L1)
              ({ ledger := L2, callsBucket := cb2, tokensBucket := tb2 }, ⟨true, none⟩)

-- ### Reservation/refund bookkeeping lemmas for the syscall

theorem dropWhile_idem {α : Type} (p : α → Bool) (l : List α) :
    (l.dropWhile p).dropWhile p = l.dropWhile p := by
  induction l with
  | nil => rfl
  | cons x xs ih =>
    cases hp : p x with
    | true => simp only [List.dropWhile, hp]; exact ih
    | false => simp only [List.dropWhile, hp]

theorem dropWhile_append_sum (p : UsageRecord → Bool) (xs : List UsageRecord)
    (hxs : ∀ x ∈ xs, p x = false) (b : List UsageRecord) :
    ((List.dropWhile p (b ++ xs)).map (·.amount)).sum
      = ((List.dropWhile p b).map (·.amount)).sum + (xs.map (·.amount)).sum := by
  induction b with
  | nil =>
    simp only [List.nil_append, List.dropWhile_nil, List.map_nil, List.sum_nil, zero_add]
    cases xs with
    | nil => simp
    | cons x xt =>
      rw [show List.dropWhile p (x :: xt) = x :: xt from by
        simp [List.dropWhile, hxs x (by simp)]]
  | cons r rest ih =>
    cases hp : p r with
    | true => simpa only [List.cons_append, List.dropWhile, hp] using ih
    | false => simp only [List.cons_append, List.dropWhile, hp, List.map_cons, List.sum_cons,
        List.append_eq, List.map_append, List.sum_append, add_assoc]

theorem getRemaining_reserve_refund (limit window now a : ℚ) (b : List UsageRecord)
    (hw : 0 ≤ window) :
    getRemaining limit window now ((prune window now b ++ [⟨now, a⟩]) ++ [⟨now, -a⟩])
      = getRemaining limit window now b := by
  have hxs : ∀ x ∈ ([⟨now, a⟩, ⟨now, -a⟩] : List UsageRecord),
      (fun r : UsageRecord => decide (r.timestamp < now - window)) x = false := by
    intro x hx
    rcases List.mem_cons.mp hx with h | h
    · subst h; apply decide_eq_false; simp only; linarith
    · simp only [List.mem_singleton] at h
      subst h; apply decide_eq_false; simp only; linarith
  have hsum := dropWhile_append_sum (fun r : UsageRecord => decide (r.timestamp < now - window))
    [⟨now, a⟩, ⟨now, -a⟩] hxs
    (List.dropWhile (fun r : UsageRecord => decide (r.timestamp < now - window)) b)
  rw [dropWhile_idem] at hsum
  unfold getRemaining getUsage prune
  rw [List.append_assoc]
  simp only [List.singleton_append]
  rw [hsum]
  norm_num

theorem Ledger.getResource_ensure (L : Ledger) (pid res : String) :
    (L.ensurePrincipal pid).getResource pid res = L.getResource pid res := by
  unfold Ledger.ensurePrincipal Ledger.getResource
  cases h : alGet L.resources pid with
  | some d => simp [h]
  | none =>
    simp only
    rw [alGet_append_single, h]
    simp [alGet]

theorem Ledger.getResource_set_self (L : Ledger) (pid res : String) (a : ℚ) :
    (L.setResource pid res a).getResource pid res = a := by
  unfold Ledger.setResource Ledger.getResource
  simp only [alGet_alSet_self, Option.getD_some]

theorem Ledger.getResource_credit_self (L : Ledger) (pid res : String) (a : ℚ) :
    (L.creditResource pid res a).getResource pid res = L.getResource pid res + a := by
  unfold Ledger.creditResource
  rw [Ledger.getResource_set_self]

theorem Ledger.spendResource_success_self (L : Ledger) (pid res : String) (a : ℚ)
    (h : (L.spendResource pid res a).2 = true) :
    (L.spendResource pid res a).1.getResource pid res = L.getResource pid res - a := by
  unfold Ledger.spendResource at *
  by_cases h1 : a < 0
  · simp [h1] at h
  · by_cases h2 : ¬ L.canSpendResource pid res a
    · simp [h1, h2] at h
    · simp only [h1, h2, if_false]
      exact Ledger.getResource_set_self L pid res _

theorem estimatedCostOf_pos (estTokens : Nat) : 0 < estimatedCostOf estTokens := by
  unfold estimatedCostOf
  have : (0 : ℚ) < 2 / 10000 := by norm_num
  exact lt_of_lt_of_le this (le_max_left _ _)

-- ### C9: provider failure fully refunds all three reservations

/-- C9: when the model is allowed, the payer can afford the estimated cost,
and both rate reservations (one `llm_calls` unit and the estimated
`llm_tokens`) are admitted, a provider failure returns the `llm_error`
verdict and refunds all three reservations: the payer's `llm_budget` and the
remaining capacity of both rate windows (evaluated at the call's time) equal
their pre-call values. -/
theorem llm_syscall_failure_refund (st : SysState) (payer : String)
    (messages : List String) (callsLimit tokensLimit window now : ℚ) (e : String)
    (hw : 0 ≤ window)
    (hbudget : st.ledger.canAffordLlmCall payer
      (estimatedCostOf (estimateTokens messages)) = true)
    (hcalls : (consume callsLimit window now st.callsBucket 1).2 = true)
    (htokens : (consume tokensLimit window now st.tokensBucket
      ((estimateTokens messages : Nat) : ℚ)).2 = true) :
    (callLlmSyscall st payer true messages callsLimit tokensLimit window now
        (.error e)).2 = ⟨false, some "llm_error"⟩ ∧
    (callLlmSyscall st payer true messages callsLimit tokensLimit window now
        (.error e)).1.ledger.getLlmBudget payer = st.ledger.getLlmBudget payer ∧
    getRemaining callsLimit window now
        (callLlmSyscall st payer true messages callsLimit tokensLimit window now
          (.error e)).1.callsBucket
      = getRemaining callsLimit window now st.callsBucket ∧
    getRemaining tokensLimit window now
        (callLlmSyscall st payer true messages callsLimit tokensLimit window now
          (.error e)).1.tokensBucket
      = getRemaining tokensLimit window now st.tokensBucket := by
  have hcost := estimatedCostOf_pos (estimateTokens messages)
  have hest0 : ¬ ((estimateTokens messages : Nat) : ℚ) < 0 :=
    not_lt.mpr (by positivity)
  have hestpos : (0:ℚ) < ((estimateTokens messages : Nat) : ℚ) := by
    have h20 : (20 : Nat) ≤ estimateTokens messages := le_max_left _ _
    exact_mod_cast lt_of_lt_of_le (by norm_num) h20
  have hspend : st.ledger.spendResource payer "llm_budget"
      (estimatedCostOf (estimateTokens messages)) =
      (st.ledger.setResource payer "llm_budget"
        (st.ledger.getResource payer "llm_budget" -
          estimatedCostOf (estimateTokens messages)), true) := by
    unfold Ledger.spendResource
    rw [if_neg (by linarith : ¬ estimatedCostOf (estimateTokens messages) < 0),
      if_neg (by simpa [Ledger.canSpendResource, Ledger.canAffordLlmCall,
        Ledger.getLlmBudget] using hbudget)]
  have hc1 : consume callsLimit window now st.callsBucket 1 =
      (prune window now st.callsBucket ++ [⟨now, 1⟩], true) := by
    unfold consume at hcalls ⊢
    rw [if_neg (by norm_num : ¬ (1:ℚ) < 0), if_neg (by norm_num : ¬ (1:ℚ) = 0)] at hcalls ⊢
    by_cases hcap : ¬ hasCapacity callsLimit window now st.callsBucket 1
    · rw [if_pos hcap] at hcalls
      cases hcalls
    · rw [if_neg hcap]
  have hc2 : consume tokensLimit window now st.tokensBucket
      ((estimateTokens messages : Nat) : ℚ) =
      (prune window now st.tokensBucket ++
        [⟨now, ((estimateTokens messages : Nat) : ℚ)⟩], true) := by
    unfold consume at htokens ⊢
    rw [if_neg hest0, if_neg (by linarith)] at htokens ⊢
    by_cases hcap : ¬ hasCapacity tokensLimit window now st.tokensBucket
        ((estimateTokens messages : Nat) : ℚ)
    · rw [if_pos hcap] at htokens
      cases htokens
    · rw [if_neg hcap]
  have hrefc : refund now (prune window now st.callsBucket ++ [⟨now, 1⟩]) 1 =
      ((prune window now st.callsBucket ++ [⟨now, 1⟩]) ++ [⟨now, -1⟩], true) := by
    unfold refund
    rw [if_neg (by norm_num : ¬ (1:ℚ) ≤ 0)]
  have hreft : refund now (prune window now st.tokensBucket ++
      [⟨now, ((estimateTokens messages : Nat) : ℚ)⟩])
      ((estimateTokens messages : Nat) : ℚ) =
      ((prune window now st.tokensBucket ++
        [⟨now, ((estimateTokens messages : Nat) : ℚ)⟩]) ++
        [⟨now, -((estimateTokens messages : Nat) : ℚ)⟩], true) := by
    unfold refund
    rw [if_neg (by linarith)]
  have hcall : callLlmSyscall st payer true messages callsLimit tokensLimit window now
      (.error e) =
      ({ ledger := (st.ledger.setResource payer "llm_budget"
            (st.ledger.getResource payer "llm_budget" -
              estimatedCostOf (estimateTokens messages))).creditResource payer "llm_budget"
            (estimatedCostOf (estimateTokens messages)),
         callsBucket := (prune window now st.callsBucket ++ [⟨now, 1⟩]) ++ [⟨now, -1⟩],
         tokensBucket := (prune window now st.tokensBucket ++
            [⟨now, ((estimateTokens messages : Nat) : ℚ)⟩]) ++
            [⟨now, -((estimateTokens messages : Nat) : ℚ)⟩] },
       ⟨false, some "llm_error"⟩) := by
    unfold callLlmSyscall
    rw [if_neg (by simp)]
    rw [if_neg (by simp [hbudget])]
    simp only [hspend, hc1, hc2, hrefc, hreft]
  rw [hcall]
  refine ⟨rfl, ?_, ?_, ?_⟩
  · show ((st.ledger.setResource payer "llm_budget"
        (st.ledger.getResource payer "llm_budget" -
          estimatedCostOf (estimateTokens messages))).creditResource payer "llm_budget"
        (estimatedCostOf (estimateTokens messages))).getLlmBudget payer = _
    unfold Ledger.getLlmBudget
    rw [Ledger.getResource_credit_self, Ledger.getResource_set_self]
    ring
  · exact getRemaining_reserve_refund callsLimit window now 1 st.callsBucket hw
  · exact getRemaining_reserve_refund tokensLimit window now _ st.tokensBucket hw

/-- Concrete state for the C9 witness: one payer with an `llm_budget` of 1
and empty rate windows. -/
def sysStateC9 : SysState :=
  { ledger := { scrip := [], resources := [("agent", [("llm_budget", 1)])] },
    callsBucket := [], tokensBucket := [] }

/-- Witness for `llm_syscall_failure_refund`: with limits 10 calls / 1000
tokens per 60-second window, a failing provider call leaves the budget and
both remaining capacities at their pre-call values. -/
theorem llm_syscall_failure_refund_witness :
    (callLlmSyscall sysStateC9 "agent" true [] 10 1000 60 0 (.error "boom")).2
      = ⟨false, some "llm_error"⟩ ∧
    (callLlmSyscall sysStateC9 "agent" true [] 10 1000 60 0
        (.error "boom")).1.ledger.getLlmBudget "agent"
      = sysStateC9.ledger.getLlmBudget "agent" ∧
    getRemaining 10 60 0 (callLlmSyscall sysStateC9 "agent" true [] 10 1000 60 0
        (.error "boom")).1.callsBucket
      = getRemaining 10 60 0 sysStateC9.callsBucket ∧
    getRemaining 1000 60 0 (callLlmSyscall sysStateC9 "agent" true [] 10 1000 60 0
        (.error "boom")).1.tokensBucket
      = getRemaining 1000 60 0 sysStateC9.tokensBucket :=
  llm_syscall_failure_refund sysStateC9 "agent" [] 10 1000 60 0 "boom" (by norm_num)
    (by norm_num [sysStateC9, Ledger.canAffordLlmCall, Ledger.getLlmBudget, Ledger.getResource,
      alGet, List.find?, estimatedCostOf, estimateTokens, max_def])
    (by norm_num [sysStateC9, consume, hasCapacity, getRemaining, getUsage, prune, max_def])
    (by norm_num [sysStateC9, consume, hasCapacity, getRemaining, getUsage, prune, max_def,
      estimateTokens])

-- ### Action-intent JSON parsing (`world/actions.py`)

/-- A parsed JSON value, as produced by `json.loads`. -/
inductive JValue where
  | null
  | bool (b : Bool)
  | int (n : Int)
  | float (q : ℚ)
  | str (s : String)
  | arr (items : List JValue)
  | obj (fields : List (String × JValue))
deriving Repr

/-- Python exceptions raised by agent-facing code paths. -/
inductive PyExc where
  | valueError (msg : String)
  | typeError (msg : String)
  | timeoutError (msg : String)
  | runtime (msg : String)
deriving Repr, DecidableEq

/-- `str(exc)`. -/
def pyExcText : PyExc → String
  | .valueError m => m
  | .typeError m => m
  | .timeoutError m => m
  | .runtime m => m

/-- `type(exc).__name__`. -/
def pyExcName : PyExc → String
  | .valueError _ => "ValueError"
  | .typeError _ => "TypeError"
  | .timeoutError _ => "TimeoutError"
  | .runtime _ => "RuntimeError"

/-- Python `s.strip()`: drop whitespace from both ends (list-based so that
concrete inputs reduce in the kernel). -/
def pyStrip (s : String) : String :=
  String.mk (((s.data.dropWhile Char.isWhitespace).reverse.dropWhile Char.isWhitespace).reverse)

/-- Python `s.lower()`. -/
def pyLower (s : String) : String := String.mk (s.data.map Char.toLower)

/-- `d.get(k, dflt)` on a JSON object. -/
def jGetD (d : List (String × JValue)) (k : String) (dflt : JValue) : JValue :=
  (alGet d k).getD dflt

/-- `d.setdefault(k, v)`. -/
def jSetDefault (d : List (String × JValue)) (k : String) (v : JValue) :
    List (String × JValue) :=
  if (alGet d k).isSome then d else d ++ [(k, v)]

/-- Python truthiness of a JSON value. -/
def pyTruthy : JValue → Bool
  | .null => false
  | .bool b => b
  | .int n => decide (n ≠ 0)
  | .float q => decide (q ≠ 0)
  | .str s => decide (s ≠ "")
  | .arr l => !l.isEmpty
  | .obj l => !l.isEmpty

/-- Python `a or b` on values: `a` if truthy, else `b`. -/
def pyOr (a b : JValue) : JValue := if pyTruthy a then a else b

/-- Value of a digit string (assumes every character is a digit). -/
def digitsToNat (l : List Char) : Nat :=
  l.foldl (fun acc c => acc * 10 + (c.toNat - 48)) 0

/-- Python `int("...")`: optional surrounding whitespace, optional sign, then
one or more digits; anything else raises `ValueError`.  (Underscore digit
separators are not modelled; no input below uses them.) -/
def pyIntOfString (s : String) : Except PyExc Int :=
  let t := (pyStrip s).data
  match t with
  | '-' :: ds =>
    if ds ≠ [] ∧ ds.all Char.isDigit then .ok (-(digitsToNat ds : Int))
    else .error (.valueError ("invalid literal for int() with base 10: " ++ s))
  | '+' :: ds =>
    if ds ≠ [] ∧ ds.all Char.isDigit then .ok (digitsToNat ds : Int)
    else .error (.valueError ("invalid literal for int() with base 10: " ++ s))
  | ds =>
    if ds ≠ [] ∧ ds.all Char.isDigit then .ok (digitsToNat ds : Int)
    else .error (.valueError ("invalid literal for int() with base 10: " ++ s))

/-- Python `int(v)` on a JSON value: bools are ints, floats truncate toward
zero, numeric strings parse, everything else raises. -/
def pyInt : JValue → Except PyExc Int
  | .bool b => .ok (if b then 1 else 0)
  | .int n => .ok n
  | .float q => .ok (Int.tdiv q.num (q.den : Int))
  | .str s => pyIntOfString s
  | .null => .error (.typeError "int() argument must not be NoneType")
  | .arr _ => .error (.typeError "int() argument must not be list")
  | .obj _ => .error (.typeError "int() argument must not be dict")

/-- Python `str(v)`.  Scalar renderings are exact; list/dict renderings are
abbreviated (such values never equal an action name and only feed rejection
messages, never the failing coercions). -/
def pyStr : JValue → String
  | .null => "None"
  | .bool b => if b then "True" else "False"
  | .int n => toString n
  | .float q => toString q
  | .str s => s
  | .arr _ => "[...]"
  | .obj _ => "\x7b...\x7d"

/-- Substring containment scan for Python's `token in text`. -/
def containsAux (sub : List Char) : List Char → Bool
  | [] => sub.isEmpty
  | c :: rest => sub.isPrefixOf (c :: rest) || containsAux sub rest

/-- Python `sub in s` on strings. -/
def pyInStr (sub s : String) : Bool := containsAux sub.data s.data

/-- `KNOWN_QUERY_TYPES`. -/
def knownQueryTypes : List String :=
  ["artifacts", "artifact", "principals", "principal", "balances", "resources",
   "quotas", "mint", "events", "frozen", "libraries", "dependencies"]

/-- `_infer_query_type`: keyword heuristics mapping free text to a query
type plus default params. -/
def inferQueryType (queryText : String) (principalId : String) :
    String × List (String × JValue) :=
  let lowered := queryText |> pyStrip |> pyLower
  if lowered ∈ knownQueryTypes then (lowered, [])
  else if ["mint", "auction", "bid"].any (fun tk => pyInStr tk lowered) then ("mint", [])
  else if ["event", "history", "log", "timeline", "status", "state", "time"].any
      (fun tk => pyInStr tk lowered) then ("events", [("limit", .int 20)])
  else if ["resource", "quota", "budget", "cpu", "token"].any
      (fun tk => pyInStr tk lowered) then ("resources", [("principal_id", .str principalId)])
  else if ["balance", "scrip", "currency"].any (fun tk => pyInStr tk lowered) then
    ("balances", [("principal_id", .str principalId)])
  else if pyInStr "frozen" lowered then ("frozen", [])
  else if pyInStr "library" lowered then ("libraries", [("principal_id", .str principalId)])
  else if pyInStr "depend" lowered then ("artifacts", [("limit", .int 50)])
  else if ["principal", "agent"].any (fun tk => pyInStr tk lowered) then
    (if pyInStr "self" lowered then ("principal", [("principal_id", .str principalId)])
     else ("principals", []))
  else if pyInStr "artifact" lowered then ("artifacts", [("limit", .int 50)])
  else ("balances", [("principal_id", .str principalId)])

mutual

/-- `json.dumps` (string escaping omitted; only used to stringify a non-str
`content` field). -/
def jDump : JValue → String
  | .null => "null"
  | .bool b => if b then "true" else "false"
  | .int n => toString n
  | .float q => toString q
  | .str s => "\"" ++ s ++ "\""
  | .arr items => "[" ++ jDumpList items ++ "]"
  | .obj fields => "\x7b" ++ jDumpFields fields ++ "\x7d"

def jDumpList : List JValue → String
  | [] => ""
  | [x] => jDump x
  | x :: y :: rest => jDump x ++ ", " ++ jDumpList (y :: rest)

def jDumpFields : List (String × JValue) → String
  | [] => ""
  | [(k, v)] => "\"" ++ k ++ "\": " ++ jDump v
  | (k, v) :: kv2 :: rest => "\"" ++ k ++ "\": " ++ jDump v ++ ", " ++ jDumpFields (kv2 :: rest)

end

/-- Is this a non-empty string after `strip()`?  (The repeated
`isinstance(query_type, str) and query_type.strip()` test.) -/
def isStrNonempty : JValue → Bool
  | .str s => decide (pyStrip s ≠ "")
  | _ => false

/-- `_normalize_payload`: merge a `parameters` sub-object, apply the
`queryType`/`recipient`/`fn` and `action` aliases, and for `query_kernel`
normalize the params dict and infer a query type from free text. -/
def normalizePayload (principalId : String) (payload : List (String × JValue)) :
    List (String × JValue) :=
  let data := payload
  let parameters := alGet data "parameters"
  let data := match parameters with
    | some (.obj pl) => pl.foldl (fun acc kv => jSetDefault acc kv.1 kv.2) data
    | _ => data
  let data := if (alGet data "query_type").isNone then
      match alGet data "queryType" with
      | some (.str s) => alSet data "query_type" (.str s)
      | _ => data
    else data
  let data := if (alGet data "recipient_id").isNone then
      match alGet data "recipient" with
      | some (.str s) => alSet data "recipient_id" (.str s)
      | _ => data
    else data
  let data := if (alGet data "method").isNone then
      match alGet data "fn" with
      | some (.str s) => alSet data "method" (.str s)
      | _ => data
    else data
  let actionTypeRaw := (pyStr (jGetD data "action_type" (.str "")))|> pyStrip |> pyLower
  let step := match alGet data "action" with
    | some (.str a) =>
      let aliasName := a|> pyStrip |> pyLower
      if aliasName ≠ "" ∧ (actionTypeRaw = "" ∨ actionTypeRaw = "noop") ∧ aliasName ≠ "noop" then
        (aliasName, alSet data "action_type" (.str aliasName))
      else (actionTypeRaw, data)
    | _ => (actionTypeRaw, data)
  let actionTypeRaw := step.1
  let data := step.2
  if actionTypeRaw = "query_kernel" then
    let params := match alGet data "params" with
      | some (.obj pl) => pl
      | _ => []
    let params := match parameters with
      | some (.obj pl) =>
        let p := match alGet pl "params" with
          | some (.obj nested) =>
            nested.foldl (fun acc (kv : String × JValue) => alSet acc kv.1 kv.2) params
          | _ => params
        pl.foldl (fun acc (kv : String × JValue) =>
          if kv.1 = "params" then acc else jSetDefault acc kv.1 kv.2) p
      | _ => params
    let queryType := jGetD data "query_type" .null
    let step2 := match queryType with
      | .str s =>
        if pyStrip s ≠ "" then
          let q := s|> pyStrip |> pyLower
          if q ∈ knownQueryTypes then (JValue.str q, params)
          else
            let ip := inferQueryType q principalId
            (JValue.str ip.1, ip.2.foldl (fun acc (kv : String × JValue) => jSetDefault acc kv.1 kv.2) params)
        else (JValue.str s, params)
      | v => (v, params)
    let queryType := step2.1
    let params := step2.2
    let step3 :=
      if isStrNonempty queryType then (queryType, params)
      else
        let cand : Option String × JValue := match alGet data "query" with
          | some (.str s) => (some s, queryType)
          | _ => match parameters with
            | some (.obj pl) =>
              match alGet pl "query" with
              | some (.str s) => (some s, queryType)
              | _ =>
                match pyOr (jGetD pl "query_type" .null) (jGetD pl "queryType" .null) with
                | .str ct => (none, JValue.str ct)
                | _ => (none, queryType)
            | _ => (none, queryType)
        if isStrNonempty cand.2 then (cand.2, params)
        else match cand.1 with
          | some c =>
            let ip := inferQueryType c principalId
            (JValue.str ip.1, ip.2.foldl (fun acc (kv : String × JValue) => jSetDefault acc kv.1 kv.2) params)
          | none =>
            (JValue.str "balances", jSetDefault params "principal_id" (.str principalId))
    let qtStr := match step3.1 with | .str s => s | _ => ""
    let data := alSet data "query_type" (.str (qtStr|> pyStrip |> pyLower))
    alSet data "params" (.obj step3.2)
  else data

/-- The 13 typed action intents (the `ActionIntent` subclass hierarchy as a
sum type, each variant with only its own fields plus the common principal and
reasoning). -/
inductive ActionIntent where
  | noop (principalId reasoning : String)
  | readArtifact (principalId artifactId reasoning : String)
  | writeArtifact (principalId artifactId artifactType content : String)
      (executable : Bool) (code : String) (readPrice invokePrice : Int)
      (accessContractId : Option String)
      (metadata interface : Option (List (String × JValue)))
      (hasStanding hasLoop : Bool) (capabilities : List String) (reasoning : String)
  | editArtifact (principalId artifactId oldString newString reasoning : String)
  | invokeArtifact (principalId artifactId method : String) (args : List JValue)
      (reasoning : String)
  | deleteArtifact (principalId artifactId reasoning : String)
  | queryKernel (principalId queryType : String) (params : List (String × JValue))
      (reasoning : String)
  | subscribeArtifact (principalId artifactId reasoning : String)
  | unsubscribeArtifact (principalId artifactId reasoning : String)
  | transfer (principalId recipientId : String) (amount : Int) (memo : Option String)
      (reasoning : String)
  | mint (principalId recipientId : String) (amount : Int) (reason reasoning : String)
  | submitToMint (principalId artifactId : String) (bid : Int) (reasoning : String)
  | updateMetadata (principalId artifactId key : String) (value : JValue)
      (reasoning : String)
deriving Repr

/-- `_coerce_int`: ints pass (bools are rejected), digit-only strings parse,
everything else is `None`. -/
def coerceInt : JValue → Option Int
  | .bool _ => none
  | .int n => some n
  | .str s =>
    let t := pyStrip s
    if t.data ≠ [] ∧ t.data.all Char.isDigit then some (digitsToNat t.data : Int) else none
  | _ => none

/-- What a call to `parse_intent_from_json` can do: return a typed intent,
return a rejection string, or raise a Python exception. -/
inductive ParseOutcome where
  | intent (i : ActionIntent)
  | reject (msg : String)
  | exc (e : PyExc)
deriving Repr

/-- The message listing valid actions, returned for an unknown
`action_type`. -/
def unknownActionMsg (actionTypeRaw : String) : String :=
  "Unknown action_type: " ++ actionTypeRaw ++ ". " ++
  "Valid actions: noop, read_artifact, write_artifact, edit_artifact, " ++
  "delete_artifact, invoke_artifact, query_kernel, subscribe_artifact, " ++
  "unsubscribe_artifact, transfer, mint, submit_to_mint, update_metadata"

/-- `parse_intent_from_json`.  The input is the result of `json.loads`
(`.error` = `JSONDecodeError`).  Exceptions raised by the body — in
particular `int(...)` coercions of the price fields — surface as `.exc`. -/
def parseIntentFromJson (principalId : String) (jsonInput : Except String JValue) :
    ParseOutcome :=
  match jsonInput with
  | .error msg => .reject ("Invalid JSON: " ++ msg)
  | .ok (.obj payload) =>
    let data := normalizePayload principalId payload
    let actionTypeRaw := (pyStr (jGetD data "action_type" (.str "")))|> pyStrip |> pyLower
    let reasoning := pyStr (jGetD data "reasoning" (.str ""))
    if actionTypeRaw = "noop" then .intent (.noop principalId reasoning)
    else if actionTypeRaw = "read_artifact" then
      match jGetD data "artifact_id" .null with
      | .str aid =>
        if aid = "" then .reject "read_artifact requires 'artifact_id' (string)"
        else .intent (.readArtifact principalId aid reasoning)
      | _ => .reject "read_artifact requires 'artifact_id' (string)"
    else if actionTypeRaw = "write_artifact" then
      match jGetD data "artifact_id" .null with
      | .str aid =>
        if aid = "" then .reject "write_artifact requires 'artifact_id' (string)"
        else
          let artifactType := pyStr (jGetD data "artifact_type" (.str "generic"))
          let content := match jGetD data "content" (.str "") with
            | .str s => s
            | other => jDump other
          let executable := pyTruthy (jGetD data "executable" (.bool false))
          let code := pyStr (jGetD data "code" (.str ""))
          if executable ∧ code = "" then
            .reject "write_artifact executable=true requires 'code'"
          else
            match pyInt (pyOr (jGetD data "read_price" (.int 0)) (.int 0)) with
            | .error e => .exc e
            | .ok readPrice =>
              match pyInt (pyOr (jGetD data "invoke_price"
                  (jGetD data "price" (.int 0))) (.int 0)) with
              | .error e => .exc e
              | .ok invokePrice =>
                let acid := jGetD data "access_contract_id" .null
                match acid with
                | .null => parseWriteTail principalId data aid artifactType content
                    executable code readPrice invokePrice none reasoning
                | .str s => parseWriteTail principalId data aid artifactType content
                    executable code readPrice invokePrice (some s) reasoning
                | _ => .reject "access_contract_id must be a string or null"
      | _ => .reject "write_artifact requires 'artifact_id' (string)"
    else if actionTypeRaw = "edit_artifact" then
      match jGetD data "artifact_id" .null, jGetD data "old_string" .null,
          jGetD data "new_string" .null with
      | .str aid, .str oldS, .str newS =>
        if aid = "" then .reject "edit_artifact requires 'artifact_id'"
        else if oldS = newS then .reject "edit_artifact old_string and new_string must differ"
        else .intent (.editArtifact principalId aid oldS newS reasoning)
      | .str aid, .str _, _ =>
        if aid = "" then .reject "edit_artifact requires 'artifact_id'"
        else .reject "edit_artifact requires 'new_string'"
      | .str aid, _, _ =>
        if aid = "" then .reject "edit_artifact requires 'artifact_id'"
        else .reject "edit_artifact requires 'old_string'"
      | _, _, _ => .reject "edit_artifact requires 'artifact_id'"
    else if actionTypeRaw = "invoke_artifact" then
      match jGetD data "artifact_id" .null with
      | .str aid =>
        if aid = "" then .reject "invoke_artifact requires 'artifact_id'"
        else
          match jGetD data "method" .null with
          | .str m =>
            if m = "" then .reject "invoke_artifact requires 'method'"
            else
              match jGetD data "args" (.arr []) with
              | .arr args => .intent (.invokeArtifact principalId aid m args reasoning)
              | _ => .reject "invoke_artifact 'args' must be a list"
          | _ => .reject "invoke_artifact requires 'method'"
      | _ => .reject "invoke_artifact requires 'artifact_id'"
    else if actionTypeRaw = "delete_artifact" then
      match jGetD data "artifact_id" .null with
      | .str aid =>
        if aid = "" then .reject "delete_artifact requires 'artifact_id'"
        else .intent (.deleteArtifact principalId aid reasoning)
      | _ => .reject "delete_artifact requires 'artifact_id'"
    else if actionTypeRaw = "query_kernel" then
      match jGetD data "query_type" .null with
      | .str qt =>
        if qt = "" then .reject "query_kernel requires 'query_type'"
        else
          match jGetD data "params" (.obj []) with
          | .obj params => .intent (.queryKernel principalId qt params reasoning)
          | _ => .reject "query_kernel params must be a dict"
      | _ => .reject "query_kernel requires 'query_type'"
    else if actionTypeRaw = "subscribe_artifact" then
      match jGetD data "artifact_id" .null with
      | .str aid =>
        if aid = "" then .reject "subscribe_artifact requires 'artifact_id'"
        else .intent (.subscribeArtifact principalId aid reasoning)
      | _ => .reject "subscribe_artifact requires 'artifact_id'"
    else if actionTypeRaw = "unsubscribe_artifact" then
      match jGetD data "artifact_id" .null with
      | .str aid =>
        if aid = "" then .reject "unsubscribe_artifact requires 'artifact_id'"
        else .intent (.unsubscribeArtifact principalId aid reasoning)
      | _ => .reject "unsubscribe_artifact requires 'artifact_id'"
    else if actionTypeRaw = "transfer" then
      match jGetD data "recipient_id" .null with
      | .str rid =>
        if rid = "" then .reject "transfer requires 'recipient_id'"
        else
          match coerceInt (jGetD data "amount" .null) with
          | none => .reject "transfer requires positive integer 'amount'"
          | some amount =>
            if amount ≤ 0 then .reject "transfer requires positive integer 'amount'"
            else
              match jGetD data "memo" .null with
              | .null => .intent (.transfer principalId rid amount none reasoning)
              | .str m => .intent (.transfer principalId rid amount (some m) reasoning)
              | _ => .reject "transfer memo must be string or null"
      | _ => .reject "transfer requires 'recipient_id'"
    else if actionTypeRaw = "mint" then
      match jGetD data "recipient_id" .null with
      | .str rid =>
        if rid = "" then .reject "mint requires 'recipient_id'"
        else
          match coerceInt (jGetD data "amount" .null) with
          | none => .reject "mint requires positive integer 'amount'"
          | some amount =>
            if amount ≤ 0 then .reject "mint requires positive integer 'amount'"
            else
              match jGetD data "reason" .null with
              | .str reason =>
                if reason = "" then .reject "mint requires 'reason'"
                else .intent (.mint principalId rid amount reason reasoning)
              | _ => .reject "mint requires 'reason'"
      | _ => .reject "mint requires 'recipient_id'"
    else if actionTypeRaw = "submit_to_mint" then
      match jGetD data "artifact_id" .null with
      | .str aid =>
        if aid = "" then .reject "submit_to_mint requires 'artifact_id'"
        else
          match coerceInt (jGetD data "bid" .null) with
          | none => .reject "submit_to_mint requires positive integer 'bid'"
          | some bid =>
            if bid ≤ 0 then .reject "submit_to_mint requires positive integer 'bid'"
            else .intent (.submitToMint principalId aid bid reasoning)
      | _ => .reject "submit_to_mint requires 'artifact_id'"
    else if actionTypeRaw = "update_metadata" then
      match jGetD data "artifact_id" .null with
      | .str aid =>
        if aid = "" then .reject "update_metadata requires 'artifact_id'"
        else
          match jGetD data "key" .null with
          | .str key =>
            if key = "" then .reject "update_metadata requires 'key'"
            else .intent (.updateMetadata principalId aid key
              (jGetD data "value" .null) reasoning)
          | _ => .reject "update_metadata requires 'key'"
      | _ => .reject "update_metadata requires 'artifact_id'"
    else .reject (unknownActionMsg actionTypeRaw)
  | .ok _ => .reject "Action payload must be a JSON object"
where
  /-- The remaining `write_artifact` field checks: metadata, interface,
  standing/loop flags, capabilities, and intent construction (whose
  `__init__` forces `has_standing := has_standing or has_loop`). -/
  parseWriteTail (principalId : String) (data : List (String × JValue))
      (aid artifactType content : String) (executable : Bool) (code : String)
      (readPrice invokePrice : Int) (acid : Option String) (reasoning : String) :
      ParseOutcome :=
    let metadataV := jGetD data "metadata" .null
    match metadataV with
    | .null => parseWriteTail2 principalId data aid artifactType content executable code
        readPrice invokePrice acid none reasoning
    | .obj pl => parseWriteTail2 principalId data aid artifactType content executable code
        readPrice invokePrice acid (some pl) reasoning
    | _ => .reject "metadata must be a dict or null"
  parseWriteTail2 (principalId : String) (data : List (String × JValue))
      (aid artifactType content : String) (executable : Bool) (code : String)
      (readPrice invokePrice : Int) (acid : Option String)
      (metadata : Option (List (String × JValue))) (reasoning : String) : ParseOutcome :=
    let interfaceV := jGetD data "interface" .null
    match interfaceV with
    | .null => parseWriteTail3 principalId data aid artifactType content executable code
        readPrice invokePrice acid metadata none reasoning
    | .obj pl => parseWriteTail3 principalId data aid artifactType content executable code
        readPrice invokePrice acid metadata (some pl) reasoning
    | _ => .reject "interface must be a dict or null"
  parseWriteTail3 (principalId : String) (data : List (String × JValue))
      (aid artifactType content : String) (executable : Bool) (code : String)
      (readPrice invokePrice : Int) (acid : Option String)
      (metadata interface : Option (List (String × JValue))) (reasoning : String) :
      ParseOutcome :=
    let hasStanding := pyTruthy (jGetD data "has_standing" (.bool false))
    let hasLoop := pyTruthy (jGetD data "has_loop" (.bool false))
    match jGetD data "capabilities" .null with
    | .null => .intent (.writeArtifact principalId aid artifactType content executable code
        readPrice invokePrice acid metadata interface (hasStanding || hasLoop) hasLoop
        [] reasoning)
    | .arr items => .intent (.writeArtifact principalId aid artifactType content executable
        code readPrice invokePrice acid metadata interface (hasStanding || hasLoop) hasLoop
        (items.map pyStr) reasoning)
    | _ => .reject "capabilities must be a list"

/-- C7 failing input: a syntactically valid JSON object for `write_artifact`
whose `read_price` is the non-numeric string `"free"`. -/
def failingPayloadC7 : JValue :=
  .obj [("action_type", .str "write_artifact"), ("artifact_id", .str "a"),
        ("read_price", .str "free")]

/-- C7 (code bug): `parse_intent_from_json` coerces the price fields with a
bare `int(data.get("read_price", 0) or 0)`, so the payload
`{"action_type": "write_artifact", "artifact_id": "a", "read_price": "free"}`
raises `ValueError` out of the parser (and out of
`World.execute_action_data`, which does not catch it) instead of returning a
rejection string; the same payload with a numeric price parses to a typed
intent.  The parser's own `_coerce_int` (used for `amount`/`bid`) shows the
intended non-throwing treatment. -/
theorem parse_intent_raises_on_bad_price :
    parseIntentFromJson "agent_1" (.ok failingPayloadC7)
      = .exc (.valueError "invalid literal for int() with base 10: free") ∧
    parseIntentFromJson "agent_1" (.ok (.obj [("action_type", .str "write_artifact"),
        ("artifact_id", .str "a"), ("read_price", .int 1)]))
      = .intent (.writeArtifact "agent_1" "a" "generic" "" false "" 1 0 none none none
          false false [] "") := by
  constructor <;> rfl

-- ### Contract-engine and sandbox exception flow
-- (`world/contracts.py` / `world/executor.py` / `world/action_executor.py`)

/-- `PermissionResult` (`world/contracts.py`). -/
structure PermissionResult where
  allowed : Bool
  reason : String
  scripCost : Int := 0
  scripPayer : Option String := none
  scripRecipient : Option String := none
  resourcePayer : Option String := none
  stateUpdates : Option (List (String × JValue)) := none
  conditions : Option (List (String × JValue)) := none
deriving Repr

/-- What a contract's `check_permission` function returned: a
`PermissionResult` instance or an arbitrary Python value. -/
inductive RawPerm where
  | permResult (p : PermissionResult)
  | value (v : JValue)

/-- `ExecutableContract.check_permission`.  The two effectful steps —
`exec`ing the contract module and calling its `check_permission` — are
parameters (`.error` = an uncaught exception or `TimeoutError` from the
alarm).  Note the body wraps neither step in try/except: any exception
propagates to the caller. -/
def executableCheckPermission (defsOutcome : Except PyExc Unit) (hasFn : Bool)
    (callOutcome : Except PyExc RawPerm) : Except PyExc PermissionResult :=
  match defsOutcome with
  | .error e => .error e
  | .ok _ =>
    if ¬ hasFn then .ok { allowed := false, reason := "contract missing check_permission()" }
    else
      match callOutcome with
      | .error e => .error e
      | .ok (.permResult p) => .ok p
      | .ok (.value v) =>
        match v with
        | .obj raw =>
          match pyInt (pyOr (jGetD raw "scrip_cost" (.int 0)) (.int 0)) with
          | .error e => .error e
          | .ok cost =>
            .ok { allowed := pyTruthy (jGetD raw "allowed" (.bool false)),
                  reason := pyStr (jGetD raw "reason" (.str "contract decision")),
                  scripCost := cost,
                  scripPayer := match jGetD raw "scrip_payer" .null with
                    | .str s => some s
                    | _ => none,
                  scripRecipient := match jGetD raw "scrip_recipient" .null with
                    | .str s => some s
                    | _ => none,
                  resourcePayer := match jGetD raw "resource_payer" .null with
                    | .str s => some s
                    | _ => none,
                  stateUpdates := match jGetD raw "state_updates" .null with
                    | .obj pl => some pl
                    | _ => none,
                  conditions := match jGetD raw "conditions" .null with
                    | .obj pl => some pl
                    | _ => none }
        | _ => .ok { allowed := false, reason := "contract returned non-dict" }

/-- `ContractEngine.check` on an artifact whose access contract resolved to
an `ExecutableContract`: it calls `check_permission` with no exception
handler of its own (its only post-processing, the `state_updates` merge,
runs after a normal return and is irrelevant to the exception flow). -/
def contractEngineCheckExecutable (defsOutcome : Except PyExc Unit) (hasFn : Bool)
    (callOutcome : Except PyExc RawPerm) : Except PyExc PermissionResult :=
  executableCheckPermission defsOutcome hasFn callOutcome

/-- The success/error surface of an `ActionResult` relevant here. -/
structure ActionLite where
  success : Bool
  errorCode : Option String
deriving Repr, DecidableEq

/-- `ActionExecutor._read` up to the permission gate: not-found first, then
the contract check — with no try/except, so a contract exception escapes the
whole action execution path — then the allowed/denied split.  (The pricing
and logging after a granted permission only run on a normal return and are
outside this claim's scope.) -/
def readActionFlow (artifactPresent : Bool) (defsOutcome : Except PyExc Unit)
    (hasFn : Bool) (callOutcome : Except PyExc RawPerm) : Except PyExc ActionLite :=
  if ¬ artifactPresent then .ok ⟨false, some "not_found"⟩
  else
    match contractEngineCheckExecutable defsOutcome hasFn callOutcome with
    | .error e => .error e
    | .ok perm =>
      if ¬ perm.allowed then .ok ⟨false, some "not_authorized"⟩
      else .ok ⟨true, none⟩

/-- The success/error surface of `SafeExecutor.execute_with_invoke`'s result
dict (timing and resource fields omitted). -/
structure ExecOutcome where
  success : Bool
  error : Option String
deriving Repr, DecidableEq

/-- `SafeExecutor.execute_with_invoke`'s control flow: validation, the
`exec` of the artifact module, entry-point lookup, and the entry-point call —
each effectful step a parameter.  Unlike the contract engine, both `exec` and
the call are wrapped in try/except (`TimeoutError` first, then any
exception), so every outcome is a structured result dict. -/
def executeWithInvoke (validCode : Bool) (validMsg : String)
    (defsOutcome : Except PyExc Unit) (entryPoint : String) (entryFound : Bool)
    (entryOutcome : Except PyExc JValue) : ExecOutcome :=
  if ¬ validCode then ⟨false, some validMsg⟩
  else
    match defsOutcome with
    | .error (.timeoutError _) => ⟨false, some "code definition timed out"⟩
    | .error e => ⟨false, some ("code definition failed: " ++ pyExcText e)⟩
    | .ok _ =>
      if ¬ entryFound then ⟨false, some ("entry point '" ++ entryPoint ++ "' not found")⟩
      else
        match entryOutcome with
        | .error (.timeoutError _) => ⟨false, some "execution timed out"⟩
        | .error e =>
          ⟨false, some ("runtime error: " ++ pyExcName e ++ ": " ++ pyExcText e)⟩
        | .ok _ => ⟨true, none⟩

/-- C8 (code bug): the sandbox executor converts every exception or timeout
of the artifact code into a structured failure (`success = false`, never a
raised exception — its return type is a plain result), but an exception
raised by artifact-defined **contract** code during a permission check
propagates unhandled out of `ExecutableContract.check_permission`,
`ContractEngine.check`, and the action executor's read path, escaping the
action execution path as a raised exception. -/
theorem contract_exception_escapes_action_path :
    (∀ (e : PyExc) (entryPoint : String),
      (executeWithInvoke true "" (.ok ()) entryPoint true (.error e)).success = false) ∧
    (∀ e : PyExc, readActionFlow true (.ok ()) true (.error e) = .error e) := by
  constructor
  · intro e entryPoint
    cases e <;> rfl
  · intro e
    cases e <;> rfl

/-- Witness for `contract_exception_escapes_action_path` at a concrete
exception: the sandbox yields a structured failure, the contract path
re-raises. -/
theorem contract_exception_escapes_action_path_witness :
    (executeWithInvoke true "" (.ok ()) "run" true
      (.error (.runtime "boom"))).success = false ∧
    readActionFlow true (.ok ()) true (.error (.runtime "boom"))
      = .error (.runtime "boom") :=
  ⟨contract_exception_escapes_action_path.1 (.runtime "boom") "run",
   contract_exception_escapes_action_path.2 (.runtime "boom")⟩

end AgentEcology
